import Mathlib

/-!
Verification development for the knowledge-acquisition core of a
retrieval-augmented question-answering service.  The Python modules
`legal_content_filter.py`, `knowledge_base.py`, `incremental_scraper.py`,
`web_scraper.py` and `dynamic_search.py` are shallowly embedded below:
pure functions become Lean functions, stateful code becomes explicit
state passing, floating-point scores become rationals, and external
collaborators (the hash library, the network, the vector store, the
language model) become explicit function parameters.
-/

set_option autoImplicit false
set_option maxRecDepth 100000

namespace LegalBot

attribute [local semireducible] Rat.add Rat.mul Rat.inv

/-! ## Python string primitives

Character-level models of the `str` operations used by the source:
`str.lower`, `str.strip`, `str.split`, substring containment (`in`),
and the character classes of the `re` patterns.  Case folding is modelled
for the alphabets that actually occur in the source tables
(ASCII and Cyrillic). -/

/-- Whitespace characters recognised by Python `str.split`, `str.strip` and `\s`. -/
def isPySpace (c : Char) : Bool :=
  c == ' ' || c == '\t' || c == '\n' || c == '\r' || c == Char.ofNat 11 || c == Char.ofNat 12

/-- ASCII decimal digits, the `\d` class on the source's data. -/
def isPyDigit (c : Char) : Bool :=
  '0' ≤ c && c ≤ '9'

/-- Case folding as performed by Python `str.lower` on ASCII and Cyrillic letters. -/
def pyToLower (c : Char) : Char :=
  if 0x410 ≤ c.toNat && c.toNat ≤ 0x42F then Char.ofNat (c.toNat + 0x20)
  else if c.toNat == 0x401 then Char.ofNat 0x451
  else c.toLower

/-- Model of `text.lower()` on the character list of a string. -/
def lowerList (l : List Char) : List Char :=
  l.map pyToLower

/-- Model of `text.lower()`. -/
def lowerStr (s : String) : String :=
  ⟨lowerList s.data⟩

/-- Boolean infix test on character lists. -/
def isSubList (needle : List Char) : List Char → Bool
  | [] => needle.isEmpty
  | c :: cs => needle.isPrefixOf (c :: cs) || isSubList needle cs

/-- Model of Python substring containment, `needle in hay`. -/
def containsSub (needle : String) (hay : List Char) : Bool :=
  isSubList needle.data hay

/-- Model of `text.strip()`: drop leading and trailing whitespace. -/
def pyStrip (l : List Char) : List Char :=
  ((l.dropWhile isPySpace).reverse.dropWhile isPySpace).reverse

/-- Accumulator pass behind `pyWords`; `acc` holds the current word reversed. -/
def wordsAux : List Char → List Char → List (List Char)
  | [], acc => if acc.isEmpty then [] else [acc.reverse]
  | c :: cs, acc =>
    if isPySpace c then
      if acc.isEmpty then wordsAux cs [] else acc.reverse :: wordsAux cs []
    else wordsAux cs (c :: acc)

/-- Model of Python `str.split()` with no argument: maximal non-whitespace runs. -/
def pyWords (l : List Char) : List (List Char) :=
  wordsAux l []

/-! ## A matcher for the `re` patterns of the source

The source only uses patterns built from literal characters, character
classes, `\s*`, a single `\s`, `\d+` and bounded digit repeats, plus one
top-level alternation that is expanded where it is used.
Matching is greedy with backtracking, like the `re` module; `IGNORECASE`
is modelled by case folding the subject character (all pattern literals
in the source are already lower case). -/

/-- One token of a source regular expression. -/
inductive Tok where
  /-- A literal character (pattern literals are lower case). -/
  | lit : Char → Tok
  /-- A character class, one character from the list. -/
  | cls : List Char → Tok
  /-- The quantified class `\s*`. -/
  | ws0 : Tok
  /-- The quantified class `\d+`. -/
  | dig1 : Tok
  /-- A bounded repeat of digits, as in `\d{1,2}` or `\d{4}`. -/
  | digR : Nat → Nat → Tok
deriving Repr, DecidableEq

/-- Length of the longest prefix satisfying a character predicate. -/
def countLeading (p : Char → Bool) : List Char → Nat
  | [] => 0
  | c :: cs => if p c then countLeading p cs + 1 else 0

/-- Greedy backtracking match of a token list against a prefix of the subject;
returns the number of characters consumed by the first match in the
backtracking order used by the `re` module. -/
def matchToks : List Tok → List Char → Option Nat
  | [], _ => some 0
  | .lit _ :: _, [] => none
  | .lit c :: ts, d :: ds =>
    if pyToLower d == c then (matchToks ts ds).map (· + 1) else none
  | .cls _ :: _, [] => none
  | .cls cs :: ts, d :: ds =>
    if cs.contains (pyToLower d) then (matchToks ts ds).map (· + 1) else none
  | .ws0 :: ts, ds =>
    let run := countLeading isPySpace ds
    ((List.range (run + 1)).reverse).findSome? fun k =>
      (matchToks ts (ds.drop k)).map (· + k)
  | .dig1 :: ts, ds =>
    let run := countLeading isPyDigit ds
    (((List.range run).map (· + 1)).reverse).findSome? fun k =>
      (matchToks ts (ds.drop k)).map (· + k)
  | .digR lo hi :: ts, ds =>
    let run := countLeading isPyDigit ds
    ((((List.range (min run hi + 1)).filter (lo ≤ ·)).reverse)).findSome? fun k =>
      (matchToks ts (ds.drop k)).map (· + k)

/-- Model of `re.search`: does the pattern match at some position of the subject? -/
def hasMatch (toks : List Tok) : List Char → Bool
  | [] => (matchToks toks []).isSome
  | d :: ds => (matchToks toks (d :: ds)).isSome || hasMatch toks ds

/-- Fuel-indexed scan behind `countMatches`.  Every step consumes at least one
subject character, so fuel `ds.length + 1` always suffices; the fuel only
makes the recursion structural. -/
def countMatchesAux (toks : List Tok) : Nat → List Char → Nat
  | 0, _ => 0
  | _ + 1, [] => if (matchToks toks []).isSome then 1 else 0
  | fuel + 1, d :: rest =>
    match matchToks toks (d :: rest) with
    | some len => 1 + countMatchesAux toks fuel ((d :: rest).drop (max len 1))
    | none => countMatchesAux toks fuel rest

/-- Model of `len(re.findall(...))`: count of non-overlapping matches,
scanning left to right and resuming after each match. -/
def countMatches (toks : List Tok) (ds : List Char) : Nat :=
  countMatchesAux toks (ds.length + 1) ds

/-- Helper building the token list of a literal pattern fragment. -/
def lits (s : String) : List Tok :=
  s.data.map Tok.lit

/-! ## Relevance gate: `legal_content_filter.py`

The class `LegalContentFilter` holds fixed rule tables and is otherwise a
pure function of its input, so it is embedded as plain definitions.
Scores are rationals; the float literals of the source appear as the
corresponding rationals. -/

/-- Keyword categories of `_load_legal_keywords`, paired with the per-category
weights of `_calculate_legal_score`, in the iteration order of the source dict. -/
def legalKeywordCategories : List (List String × ℚ) :=
  [ ([ "закон", "кодекс", "статья", "пункт", "часть", "глава", "раздел",
       "постановление", "указ", "декрет", "решение", "определение",
       "право", "обязанность", "ответственность", "нарушение", "штраф",
       "суд", "судебный", "правосудие", "иск", "истец", "ответчик",
       "договор", "соглашение", "контракт", "сделка", "обязательство",
       "собственность", "имущество", "наследство", "завещание",
       "регистрация", "лицензия", "разрешение", "уведомление"], 3/10),
    ([ "республика беларусь", "беларусь", "рб", "белорусский",
       "совет министров", "президент", "парламент", "палата представителей",
       "совет республики", "конституционный суд", "верховный суд",
       "министерство юстиции", "генеральная прокуратура",
       "национальный банк", "комитет государственного контроля"], 1/4),
    ([ "гражданское право", "трудовое право", "семейное право",
       "административное право", "уголовное право", "налоговое право",
       "хозяйственное право", "земельное право", "экологическое право",
       "жилищное право", "наследственное право", "авторское право",
       "патентное право", "банковское право", "страховое право"], 1/5),
    ([ "регистрация", "лицензирование", "сертификация", "аккредитация",
       "судопроизводство", "арбитраж", "медиация", "нотариат",
       "исполнительное производство", "банкротство", "ликвидация",
       "реорганизация", "слияние", "поглощение", "аудит"], 3/20),
    ([ "физическое лицо", "юридическое лицо", "индивидуальный предприниматель",
       "общество с ограниченной ответственностью", "акционерное общество",
       "унитарное предприятие", "учреждение", "организация",
       "государственный орган", "местный орган", "должностное лицо"], 1/10),
    ([ "паспорт", "удостоверение", "справка", "выписка", "копия",
       "заявление", "жалоба", "ходатайство", "протокол", "акт",
       "приказ", "распоряжение", "инструкция", "положение", "устав"], 1/20) ]

/-- The patterns of `_load_legal_patterns`, translated token by token. -/
def legalPatterns : List (List Tok) :=
  [ lits "стать" ++ [Tok.cls "яи".data, Tok.ws0, Tok.dig1],
    lits "пункт" ++ [Tok.ws0, Tok.dig1],
    lits "част" ++ [Tok.cls "ьи".data, Tok.ws0, Tok.dig1],
    lits "глав" ++ [Tok.cls "ае".data, Tok.ws0, Tok.dig1],
    lits "раздел" ++ [Tok.ws0, Tok.dig1],
    lits "подпункт" ++ [Tok.ws0, Tok.dig1, Tok.lit '.', Tok.dig1],
    lits "абзац" ++ [Tok.ws0, Tok.dig1],
    lits "№" ++ [Tok.ws0, Tok.dig1],
    lits "от" ++ [Tok.ws0, Tok.digR 1 2, Tok.lit '.', Tok.digR 1 2, Tok.lit '.', Tok.digR 4 4],
    lits "в редакции",
    lits "с изменениями",
    lits "утратил силу",
    lits "вступает в силу",
    lits "в соответствии с",
    lits "согласно",
    lits "на основании",
    lits "в порядке",
    lits "не позднее",
    lits "в течение",
    lits "подлежит",
    lits "обязан",
    lits "вправе",
    lits "имеет право",
    lits "несет ответственность",
    lits "штраф" ++ [Tok.ws0] ++ lits "в размере",
    lits "базовых величин",
    lits "белорусских рублей" ]

/-- The disqualifying patterns of `_load_non_legal_patterns` (all literal). -/
def nonLegalPatterns : List (List Tok) :=
  [ lits "рецепт", lits "кулинар", lits "готовить", lits "приготовление",
    lits "спорт", lits "футбол", lits "хоккей", lits "погода",
    lits "гороскоп", lits "развлечения", lits "кино", lits "музыка",
    lits "игры", lits "мода", lits "красота", lits "здоровье",
    lits "медицина", lits "лечение", lits "болезнь", lits "туризм",
    lits "путешествие", lits "отдых", lits "реклама", lits "скидка",
    lits "распродажа", lits "купить", lits "продать", lits "цена",
    lits "стоимость", lits "технологии", lits "компьютер", lits "интернет",
    lits "социальные сети" ]

/-- URL markers checked by `_calculate_legal_score`. -/
def legalUrlPatterns : List String :=
  [ "pravo.by", "law", "legal", "юридический", "право", "закон",
    "government", "gov", "министерство", "комитет", "совет" ]

/-- Count of keywords of a category contained in the text. -/
def countContained (kws : List String) (t : List Char) : Nat :=
  (kws.filter (fun k => containsSub k t)).length

/-- Model of `LegalContentFilter._calculate_legal_score` on the lowered
title-plus-text and the raw url. -/
def calcLegalScore (t : List Char) (url : String) : ℚ :=
  let kwScore : ℚ :=
    (legalKeywordCategories.map
      (fun cw => ((countContained cw.1 t : ℚ) / (cw.1.length : ℚ)) * cw.2)).sum
  let patScore : ℚ :=
    (legalPatterns.map (fun p => (countMatches p t : ℚ) * (1/10))).sum
  let urlScore : ℚ :=
    if url ≠ "" then
      ((legalUrlPatterns.filter (fun p => containsSub p (lowerStr url).data)).length : ℚ) * (1/10)
    else 0
  min (kwScore + patScore * (1/10) + urlScore) 1

/-- Model of `LegalContentFilter._calculate_non_legal_score`. -/
def calcNonLegalScore (t : List Char) : ℚ :=
  min ((nonLegalPatterns.map (fun p => (countMatches p t : ℚ) * (1/10))).sum) 1

/-- The single-whitespace class `\s` used by `_check_legal_structure`. -/
def spaceCls : List Char :=
  [' ', '\t', '\n', '\r', Char.ofNat 11, Char.ofNat 12]

/-- Model of `LegalContentFilter._check_legal_structure` on the raw text.
The alternation `(статья|пункт|часть|глава)\s*\d+` is expanded into four
searches, which is equivalent for the boolean `re.search` test. -/
def checkLegalStructure (t : List Char) : ℚ :=
  let s1 : ℚ := if hasMatch [Tok.dig1, Tok.lit '.', Tok.cls spaceCls] t then 3/10 else 0
  let s2 : ℚ :=
    if hasMatch (lits "статья" ++ [Tok.ws0, Tok.dig1]) t
        || hasMatch (lits "пункт" ++ [Tok.ws0, Tok.dig1]) t
        || hasMatch (lits "часть" ++ [Tok.ws0, Tok.dig1]) t
        || hasMatch (lits "глава" ++ [Tok.ws0, Tok.dig1]) t then 2/5 else 0
  let s3 : ℚ :=
    if hasMatch [Tok.digR 1 2, Tok.lit '.', Tok.digR 1 2, Tok.lit '.', Tok.digR 4 4] t
    then 1/5 else 0
  let s4 : ℚ := if hasMatch (lits "№" ++ [Tok.ws0, Tok.dig1]) t then 1/10 else 0
  min (s1 + s2 + s3 + s4) 1

/-- Connective terms of `_check_legal_terminology`. -/
def legalTerms : List String :=
  [ "в соответствии с", "согласно", "на основании", "в порядке",
    "не позднее", "в течение", "подлежит", "обязан", "вправе",
    "имеет право", "несет ответственность", "установленный",
    "предусмотренный", "определенный", "указанный" ]

/-- Model of `LegalContentFilter._check_legal_terminology`. -/
def checkLegalTerminology (t : List Char) : ℚ :=
  min ((countContained legalTerms t : ℚ) / (legalTerms.length : ℚ)) 1

/-- Official-document markers granting the second bonus in `is_legal_content`. -/
def officialWords : List String :=
  ["постановление", "декрет", "указ", "закон", "кодекс"]

/-- Model of `LegalContentFilter.is_legal_content`.  Returns the admissibility
flag and the score; the human-readable explanation string is formatting only
and is not modelled.  The threshold is `min_legal_score = 0.20`. -/
def isLegalContent (text title url : String) : Bool × ℚ :=
  if text = "" ∨ (pyStrip text.data).length < 50 then (false, 0)
  else
    let fullText := lowerList ((title ++ " " ++ text).data)
    let nonLegal := calcNonLegalScore fullText
    if nonLegal > 1/2 then (false, nonLegal)
    else
      let legalScore := calcLegalScore fullText url
      let structureScore := checkLegalStructure text.data
      let terminologyScore := checkLegalTerminology fullText
      let base := legalScore * (3/5) + structureScore * (1/4) + terminologyScore * (3/20)
      let withB1 :=
        if containsSub "беларусь" fullText || containsSub "республика беларусь" fullText
            || containsSub "pravo.by" (lowerStr url).data
        then base + 1/10 else base
      let total :=
        if officialWords.any (fun w => containsSub w fullText)
        then withB1 + 1/20 else withB1
      (total ≥ 1/5, total)

/-- Final score exactly as the (amended) specification formula states it:
weighted sum of the three component scores plus the two conditional bonuses,
with no cap.  Stated from the spec's words, to be compared with the
source-derived `isLegalContent`. -/
def specFinalScore (text title url : String) : ℚ :=
  let fullText := lowerList ((title ++ " " ++ text).data)
  calcLegalScore fullText url * (3/5)
    + checkLegalStructure text.data * (1/4)
    + checkLegalTerminology fullText * (3/20)
    + (if containsSub "беларусь" fullText || containsSub "республика беларусь" fullText
          || containsSub "pravo.by" (lowerStr url).data then 1/10 else 0)
    + (if officialWords.any (fun w => containsSub w fullText) then 1/20 else 0)

/-! ## Retrieval quality gate: `knowledge_base.py`

The vector store (ChromaDB) is an external collaborator; a query answer is
therefore an input to the embedded functions: the parallel lists of
documents, cosine distances and metadata dictionaries that
`collection.query` returns, plus the collection count.  Distances are
rationals.  A metadata dictionary is modelled as a key-value list. -/

/-- One entry of the list built by `KnowledgeBase.search_relevant_docs`. -/
structure RelevantDoc where
  content : String
  metadata : List (String × String)
  distance : ℚ
deriving Repr, DecidableEq

/-- Inner loop of `search_relevant_docs`: zip documents with distances,
keep those with distance below 0.9, and attach the metadata entry at the
same index (an out-of-range or empty entry becomes the empty dictionary). -/
def buildRelevantDocs : List (String × ℚ) → List (List (String × String)) → List RelevantDoc
  | [], _ => []
  | (doc, dist) :: rest, ms =>
    let md := match ms with
      | [] => []
      | m :: _ => m
    let tailDocs := buildRelevantDocs rest ms.tail
    if dist < 9/10 then { content := doc, metadata := md, distance := dist } :: tailDocs
    else tailDocs

/-- Model of `KnowledgeBase.search_relevant_docs`.  The early returns for an
empty query and an empty collection are kept; the `n_results` truncation
happens inside the store and is part of the query answer. -/
def searchRelevantDocs (queryText : String) (collectionCount : Nat)
    (documents : List String) (distances : List ℚ)
    (metadatas : List (List (String × String))) : List RelevantDoc :=
  if queryText = "" ∨ pyStrip queryText.data = [] then []
  else if collectionCount = 0 then []
  else buildRelevantDocs (documents.zip distances) metadatas

/-- The `procedural_keywords` table of `should_use_dynamic_search`. -/
def proceduralKeywords : List String :=
  [ "как получить", "как оформить", "как подать", "как зарегистрировать",
    "какие документы", "какие справки", "где получить", "куда обратиться",
    "процедура", "порядок", "инструкция", "пошагово", "алгоритм",
    "лицензия", "разрешение", "справка", "регистрация", "оформление" ]

/-- The `bot_keywords` table of `should_use_dynamic_search`. -/
def botKeywords : List String :=
  [ "бот", "не работает", "не отвечает", "не обращается", "ошибка",
    "pravo.by", "сайт", "поиск", "динамический" ]

/-- The `procedural_content_keywords` table of `should_use_dynamic_search`. -/
def proceduralContentKeywords : List String :=
  [ "процедура", "порядок", "инструкция", "алгоритм", "пошагово",
    "документы", "справка", "заявление", "подача", "получение",
    "регистрация", "оформление", "лицензия", "разрешение" ]

/-- Whether the query text contains procedure-seeking phrasing. -/
def isProceduralQuery (queryText : String) : Bool :=
  proceduralKeywords.any (fun k => containsSub k (lowerList queryText.data))

/-- Whether the query text contains the bot/technical markers. -/
def isBotRelatedQuery (queryText : String) : Bool :=
  botKeywords.any (fun k => containsSub k (lowerList queryText.data))

/-- Minimum distance over a retrieval result, `min(doc['distance'] for doc in docs)`. -/
def bestDistanceOf : List RelevantDoc → ℚ
  | [] => 0
  | d :: rest => rest.foldl (fun a x => min a x.distance) d.distance

/-- Whether the best-matching (first) chunk contains procedural-content markers. -/
def hasProceduralContent (d : RelevantDoc) : Bool :=
  proceduralContentKeywords.any (fun k => containsSub k (lowerList d.content.data))

/-- Model of `KnowledgeBase.should_use_dynamic_search`.  The surrounding
`try/except` only matters when the store itself fails, which in this pure
model cannot happen. -/
def shouldUseDynamicSearch (queryText : String) (collectionCount : Nat)
    (documents : List String) (distances : List ℚ)
    (metadatas : List (List (String × String))) : Bool × List RelevantDoc :=
  let relevantDocs := searchRelevantDocs queryText collectionCount documents distances metadatas
  match relevantDocs with
  | [] => (true, [])
  | best :: rest =>
    let bestDistance := bestDistanceOf (best :: rest)
    if isBotRelatedQuery queryText then (false, best :: rest)
    else if isProceduralQuery queryText then
      if !hasProceduralContent best || bestDistance > 7/20 then (true, best :: rest)
      else (false, best :: rest)
    else if bestDistance > 3/5 then (true, best :: rest)
    else (false, best :: rest)

/-! ## Fingerprint store and change detection: `incremental_scraper.py`

The fingerprint file `pages_info.json` becomes an explicit state value;
`hashlib.md5` is an external library primitive and becomes a function
parameter (every claim about fingerprints only needs that it is a
function); the network becomes a function from URL to an optional fetched
page; wall-clock time becomes a natural number of hours, so the 24-hour
re-check interval is 24 and the 7-day site-map window is 168. -/

/-- Normalisation performed by `IncrementalScraper._get_content_hash` before
hashing: lower-case, strip, collapse internal whitespace to single spaces. -/
def pyNormalize (content : String) : String :=
  ⟨List.intercalate [' '] (pyWords (pyStrip (lowerList content.data)))⟩

/-- Model of `IncrementalScraper._get_content_hash`; `md5` is the hash
primitive supplied by the standard library. -/
def getContentHash (md5 : String → String) (content : String) : String :=
  md5 (pyNormalize content)

/-- Lookup in a JSON-object-as-association-list, first matching key. -/
def lookupA {β : Type} : List (String × β) → String → Option β
  | [], _ => none
  | kv :: rest, k => if kv.1 = k then some kv.2 else lookupA rest k

/-- Replace the value stored at a key (no insertion if the key is absent). -/
def setA {β : Type} (m : List (String × β)) (k : String) (v : β) : List (String × β) :=
  m.map fun kv => if kv.1 = k then (kv.1, v) else kv

/-- Insert-or-replace, the dict assignment `m[k] = v`. -/
def insertA {β : Type} (m : List (String × β)) (k : String) (v : β) : List (String × β) :=
  match lookupA m k with
  | some _ => setA m k v
  | none => m ++ [(k, v)]

/-- Deletion, the dict statement `del m[k]`. -/
def removeA {β : Type} (m : List (String × β)) (k : String) : List (String × β) :=
  m.filter fun kv => kv.1 ≠ k

/-- A fetched page as `_get_page_info` and the crawler see it: the title and
the text that `_extract_main_content` extracts from the parsed HTML. -/
structure Fetched where
  title : String
  content : String
deriving Repr, DecidableEq

/-- One entry of `pages_info["pages"]`. -/
structure PageRecord where
  contentHash : String
  title : String
  lastCheck : Nat
  lastScraped : Option Nat
  contentLength : Nat
deriving Repr, DecidableEq

/-- One entry of `pages_info["site_maps"]`. -/
structure SiteMapRec where
  urls : List String
  lastScan : Nat
deriving Repr, DecidableEq

/-- The persisted scraper state, `pages_info.json`. -/
structure PagesInfo where
  pages : List (String × PageRecord)
  siteMaps : List (String × SiteMapRec)
deriving Repr, DecidableEq

/-- External collaborators of the incremental scraper: the hash primitive,
URL-to-domain parsing (`urlparse(url).netloc`), the network fetch (returning
the extracted main content, or none on any transport or parse error) and
link extraction (`WebScraper.get_legal_links` on the fetched page). -/
structure ScrapeEnv where
  md5 : String → String
  domain : String → String
  fetch : String → Option Fetched
  links : String → List String

/-- Accumulator of the first loop of `check_for_changes`. -/
structure CheckAcc where
  newP : List String
  changedP : List String
  deletedP : List String
  pages : List (String × PageRecord)
deriving Repr, DecidableEq

/-- One iteration of the first loop of `check_for_changes` for one URL:
no record means new; a record checked within 24 hours is skipped; otherwise
the page is fetched (a failed fetch classifies it deleted), the stored and
current fingerprints are compared, and the record is overwritten with the
current fingerprint and check time. -/
def checkStep (env : ScrapeEnv) (now : Nat) (acc : CheckAcc) (url : String) : CheckAcc :=
  match lookupA acc.pages url with
  | none => { acc with newP := acc.newP ++ [url] }
  | some r =>
    if now - r.lastCheck < 24 then acc
    else
      match env.fetch url with
      | none => { acc with deletedP := acc.deletedP ++ [url] }
      | some f =>
        if r.contentHash ≠ getContentHash env.md5 f.content then
          { acc with changedP := acc.changedP ++ [url],
                     pages := setA acc.pages url
                       { r with lastCheck := now,
                                contentHash := getContentHash env.md5 f.content,
                                title := f.title } }
        else
          { acc with pages := setA acc.pages url
                       { r with lastCheck := now,
                                contentHash := getContentHash env.md5 f.content,
                                title := f.title } }

/-- The first loop of `check_for_changes` over the URL list. -/
def checkLoop (env : ScrapeEnv) (now : Nat) : List String → CheckAcc → CheckAcc
  | [], acc => acc
  | u :: us, acc => checkLoop env now us (checkStep env now acc u)

/-- Model of `IncrementalScraper.check_for_changes`: returns the
(new, changed, deleted) lists and the updated pages map.  After the URL
loop, every stored URL absent from the input list is appended to the
deleted list. -/
def checkForChanges (env : ScrapeEnv) (now : Nat)
    (pages : List (String × PageRecord)) (urls : List String) :
    (List String × List String × List String) × List (String × PageRecord) :=
  let acc := checkLoop env now urls { newP := [], changedP := [], deletedP := [], pages := pages }
  let deleted := acc.deletedP ++ (acc.pages.map Prod.fst).filter (fun u => ¬ urls.contains u)
  ((acc.newP, acc.changedP, deleted), acc.pages)

/-! ## Site crawler: `web_scraper.py` -/

/-- Word characters of the `\w` class in `_clean_text`, modelled for the
alphabets occurring in the source's data (ASCII and Cyrillic). -/
def isPyWordChar (c : Char) : Bool :=
  c.isAlphanum || c == '_' || (0x400 ≤ c.toNat && c.toNat ≤ 0x4FF)

/-- Characters kept by the second substitution of `_clean_text`,
the class `[\w\s.,!?;:\-()\[\]]`. -/
def allowedCleanChar (c : Char) : Bool :=
  isPyWordChar c || isPySpace c ||
    ['.', ',', '!', '?', ';', ':', '-', '(', ')', '[', ']'].contains c

/-- Replace every maximal whitespace run by a single space,
the substitution `re.sub(r'\s+', ' ', text)`; the flag records whether the
previous character belonged to a run. -/
def collapseWsAux : Bool → List Char → List Char
  | _, [] => []
  | inRun, c :: cs =>
    if isPySpace c then
      if inRun then collapseWsAux true cs
      else ' ' :: collapseWsAux true cs
    else c :: collapseWsAux false cs

/-- Model of `WebScraper._clean_text`: collapse whitespace, drop special
characters, strip. -/
def cleanText (s : String) : String :=
  ⟨pyStrip ((collapseWsAux false s.data).filter allowedCleanChar)⟩

/-- A page as returned by `WebScraper.scrape_single_page`. -/
structure ScrapedPage where
  url : String
  title : String
  content : String
  domain : String
deriving Repr, DecidableEq

/-- Model of `WebScraper.scrape_single_page`: same fetch and extraction as
`_get_page_info`, then `_clean_text`; pages whose cleaned content is shorter
than 100 characters are discarded. -/
def scrapeSinglePage (env : ScrapeEnv) (url : String) : Option ScrapedPage :=
  match env.fetch url with
  | none => none
  | some f =>
    let content := cleanText f.content
    if content.length < 100 then none
    else some { url := url, title := f.title, content := content, domain := env.domain url }

/-! ## Incremental crawl manager: the rest of `incremental_scraper.py` -/

/-- Add to the discovered set (`urls_found.add`), keeping insertion order. -/
def addFound (found : List String) (u : String) : List String :=
  if found.contains u then found else found ++ [u]

/-- Breadth-first scan of `_discover_site_urls`: pop a URL, skip it if
already checked, otherwise fetch it, record it as found and enqueue its
topical links that are not yet checked (while the found set is below the
page bound).  The fuel argument only makes the recursion structural; the
loop is run with enough fuel that it never runs out before the work list
empties. -/
def bfsScan (env : ScrapeEnv) (maxPages : Nat) :
    Nat → List String → List String → List String → List String
  | 0, _, _, found => found
  | _ + 1, [], _, found => found
  | fuel + 1, cur :: rest, checked, found =>
    if maxPages ≤ found.length then found
    else if checked.contains cur then bfsScan env maxPages fuel rest checked found
    else
      let checked1 := cur :: checked
      match env.fetch cur with
      | none => bfsScan env maxPages fuel rest checked1 found
      | some _ =>
        let found1 := addFound found cur
        let fresh := (env.links cur).filter
          (fun l => ¬ checked1.contains l && found1.length < maxPages)
        bfsScan env maxPages fuel (rest ++ fresh) checked1 found1

/-- Model of `IncrementalScraper._discover_site_urls`: reuse the cached site
map when it is younger than 7 days, otherwise scan and persist the new map
unconditionally. -/
def discoverSiteUrls (env : ScrapeEnv) (now : Nat) (st : PagesInfo)
    (startUrl : String) (maxPages fuel : Nat) : List String × PagesInfo :=
  let dom := env.domain startUrl
  let cached : Option (List String) :=
    match lookupA st.siteMaps dom with
    | some sm => if now - sm.lastScan < 168 then some sm.urls else none
    | none => none
  match cached with
  | some urls => (urls, st)
  | none =>
    let found := bfsScan env maxPages fuel [startUrl] [] []
    (found,
      { st with siteMaps := insertA st.siteMaps dom { urls := found, lastScan := now } })

/-- Result record of `incremental_scrape`. -/
structure ScrapeResult where
  totalUrlsChecked : Nat
  newPages : Nat
  changedPages : Nat
  deletedPages : Nat
  pagesScraped : Nat
  chunksAdded : Nat
deriving Repr, DecidableEq

/-- The scraping loop of `incremental_scrape`: scrape each new or changed
URL, collect the successful pages, and overwrite each scraped URL's record
with the fingerprint of the scraped content. -/
def scrapePagesLoop (env : ScrapeEnv) (now : Nat) :
    List String → List ScrapedPage × List (String × PageRecord) →
    List ScrapedPage × List (String × PageRecord)
  | [], acc => acc
  | u :: us, (scraped, pages) =>
    match scrapeSinglePage env u with
    | none => scrapePagesLoop env now us (scraped, pages)
    | some pd =>
      let rec0 : PageRecord :=
        { contentHash := getContentHash env.md5 pd.content,
          title := pd.title,
          lastCheck := now,
          lastScraped := some now,
          contentLength := pd.content.length }
      scrapePagesLoop env now us (scraped ++ [pd], insertA pages u rec0)

/-- Model of `IncrementalScraper.incremental_scrape`: discovery, change
detection, harvest of `new ++ changed`, removal of deleted records, and the
result counts.  Adding the scraped pages to the knowledge store is delegated
to `addKB` (the store is external); its return value is the chunk count. -/
def incrementalScrape (env : ScrapeEnv) (now : Nat) (st : PagesInfo)
    (startUrl : String) (maxPages fuel : Nat)
    (addKB : List ScrapedPage → Nat) : ScrapeResult × PagesInfo :=
  let d := discoverSiteUrls env now st startUrl maxPages fuel
  let allUrls := d.1
  let st1 := d.2
  let c := checkForChanges env now st1.pages allUrls
  let newPages := c.1.1
  let changedPages := c.1.2.1
  let deletedPages := c.1.2.2
  let st2 : PagesInfo := { st1 with pages := c.2 }
  let pagesToScrape := newPages ++ changedPages
  if pagesToScrape.isEmpty then
    ({ totalUrlsChecked := allUrls.length, newPages := 0, changedPages := 0,
       deletedPages := deletedPages.length, pagesScraped := 0, chunksAdded := 0 }, st2)
  else
    let s := scrapePagesLoop env now pagesToScrape ([], st2.pages)
    let scrapedData := s.1
    let pages1 := s.2
    let pages2 := deletedPages.foldl (fun m u => removeA m u) pages1
    let chunksAdded := addKB scrapedData
    ({ totalUrlsChecked := allUrls.length,
       newPages := newPages.length,
       changedPages := changedPages.length,
       deletedPages := deletedPages.length,
       pagesScraped := scrapedData.length,
       chunksAdded := chunksAdded }, { st2 with pages := pages2 })

/-! ## Fallback search orchestrator: `dynamic_search.py`

Fallible collaborators (the store upsert, the tracker, the language model)
are modelled in the `Except` monad; the enclosing `try/except` of
`search_and_add_to_knowledge_base` becomes a final catch that maps any
error to `(none, false)`.  `_search_pravo_by` and `search_relevant_docs`
catch internally and return empty lists, so they are total functions. -/

/-- Accumulator pass splitting a text into maximal runs of word characters. -/
def wordRunsAux : List Char → List Char → List (List Char)
  | [], acc => if acc.isEmpty then [] else [acc.reverse]
  | c :: cs, acc =>
    if isPyWordChar c then wordRunsAux cs (c :: acc)
    else if acc.isEmpty then wordRunsAux cs []
    else acc.reverse :: wordRunsAux cs []

/-- Runs of word characters (`\w` runs); the boundary anchors of
`\b[а-яё]+\b` make a match exactly a whole such run. -/
def wordCharRuns (l : List Char) : List (List Char) :=
  wordRunsAux l []

/-- Stop words removed by `DynamicSearcher._extract_keywords`. -/
def stopWords : List String :=
  [ "как", "что", "где", "когда", "почему", "зачем", "кто", "какой", "какая", "какие",
    "в", "на", "с", "по", "для", "от", "до", "при", "за", "под", "над", "между",
    "и", "или", "но", "а", "да", "нет", "не", "ни", "же", "ли", "бы", "то",
    "это", "этот", "эта", "эти", "тот", "та", "те", "мой", "моя", "мои",
    "его", "её", "их", "наш", "наша", "наши", "ваш", "ваша", "ваши" ]

/-- Membership in the class `[а-яё]` of the keyword pattern. -/
def isCyrLowerChar (c : Char) : Bool :=
  (0x430 ≤ c.toNat && c.toNat ≤ 0x44F) || c.toNat == 0x451

/-- Model of `DynamicSearcher._extract_keywords`: the whole-word matches of
`\b[а-яё]+\b` on the lowered text, minus stop words, keeping words longer
than 2 characters, at most 10. -/
def extractKeywords (text : String) : List String :=
  let words := ((wordCharRuns (lowerList text.data)).filter
    (fun w => w.all isCyrLowerChar)).map (fun w => (⟨w⟩ : String))
  (words.filter (fun w => ¬ stopWords.contains w && 2 < w.length)).take 10

/-- Jurisdiction-specific terms of `_generate_search_queries`. -/
def rbSpecificTerms : List String :=
  [ "республика беларусь", "беларусь", "рб", "белорусский",
    "закон", "кодекс", "постановление", "указ", "декрет" ]

/-- Model of `DynamicSearcher._generate_search_queries`. -/
def generateSearchQueries (q : String) : List String :=
  let kws := extractKeywords q
  let queries1 :=
    if 1 < kws.length then [q, String.intercalate " " (kws.take 3)] else [q]
  let queries2 :=
    match rbSpecificTerms.find? (fun t => containsSub t (lowerList q.data)) with
    | none => queries1
    | some t =>
      let termQuery := t ++ " " ++ String.intercalate " " (kws.take 2)
      if queries1.contains termQuery then queries1 else queries1 ++ [termQuery]
  queries2.take 3

/-- Model of `list(set(...))` deduplication, keeping first occurrences. -/
def dedupeUrls (l : List String) : List String :=
  l.foldl addFound []

/-- Model of `LegalContentFilter.filter_scraped_content` on scraped pages:
keep pages with non-empty content that the relevance gate admits. -/
def filterScrapedContent (pages : List ScrapedPage) : List ScrapedPage :=
  pages.filter (fun p => p.content ≠ "" && (isLegalContent p.content p.title p.url).1)

/-- External collaborators of `search_and_add_to_knowledge_base`.  Functions
that the source calls inside `try` blocks of their own (the portal search,
the single-page scrape inside the per-URL `try`, the re-query) appear with
their caught result type; the remaining calls may raise. -/
structure SearchEnv where
  searchPortal : String → List String
  scrape : String → Except String (Option ScrapedPage)
  addToKB : List ScrapedPage → Except String Nat
  updateTracker : Nat → Nat → Except String Unit
  requery : String → List RelevantDoc
  getAnswer : String → List RelevantDoc → Except String String

/-- The per-URL scraping loop of `search_and_add_to_knowledge_base`:
failures and exceptions are skipped, pages need content longer than 200. -/
def dynScrapeLoop (env : SearchEnv) : List String → List ScrapedPage → List ScrapedPage
  | [], acc => acc
  | u :: us, acc =>
    match env.scrape u with
    | .error _ => dynScrapeLoop env us acc
    | .ok none => dynScrapeLoop env us acc
    | .ok (some pd) =>
      if 200 < pd.content.length then dynScrapeLoop env us (acc ++ [pd])
      else dynScrapeLoop env us acc

/-- The deduplicated URL universe collected from all query variants. -/
def dynUniqueUrls (env : SearchEnv) (q : String) : List String :=
  dedupeUrls (((generateSearchQueries q).map env.searchPortal).flatten)

/-- The successfully scraped pages (bounded by `max_search_results = 5`). -/
def dynScraped (env : SearchEnv) (q : String) : List ScrapedPage :=
  dynScrapeLoop env ((dynUniqueUrls env q).take 5) []

/-- The pages surviving the relevance gate. -/
def dynFiltered (env : SearchEnv) (q : String) : List ScrapedPage :=
  filterScrapedContent (dynScraped env q)

/-- The source annotation appended to a successful answer. -/
def sourceNote (n : Nat) : String :=
  "\n\n📍 Информация найдена и добавлена из " ++ toString n ++ " страниц pravo.by"

/-- Body of `search_and_add_to_knowledge_base` inside its `try`; the
monadic binds on the fallible collaborators are written as explicit
matches on the `Except` values. -/
def searchAndAddBody (env : SearchEnv) (q : String) : Except String (Option String × Bool) :=
  if (dynUniqueUrls env q).isEmpty then Except.ok (none, false)
  else if (dynScraped env q).isEmpty then Except.ok (none, false)
  else if (dynFiltered env q).isEmpty then Except.ok (none, false)
  else
    match env.addToKB (dynFiltered env q) with
    | Except.error e => Except.error e
    | Except.ok chunksAdded =>
      if 0 < chunksAdded then
        match env.updateTracker (dynScraped env q).length chunksAdded with
        | Except.error e => Except.error e
        | Except.ok _ =>
          if (env.requery q).isEmpty then Except.ok (none, false)
          else
            match env.getAnswer q (env.requery q) with
            | Except.error e => Except.error e
            | Except.ok answer =>
              Except.ok (some (answer ++ sourceNote (dynScraped env q).length), true)
      else Except.ok (none, false)

/-- Model of `DynamicSearcher.search_and_add_to_knowledge_base`: the outer
`except` maps any raised error to `(none, false)`. -/
def searchAndAddToKnowledgeBase (env : SearchEnv) (q : String) : Option String × Bool :=
  match searchAndAddBody env q with
  | .ok r => r
  | .error _ => (none, false)

/-- The store's query answer decorated the way `search_relevant_docs`
decorates it, but with no distance filter: the reference ordering against
which order preservation is stated. -/
def zipAllDocs : List (String × ℚ) → List (List (String × String)) → List RelevantDoc
  | [], _ => []
  | (doc, dist) :: rest, ms =>
    let md := match ms with
      | [] => []
      | m :: _ => m
    { content := doc, metadata := md, distance := dist } :: zipAllDocs rest ms.tail

/-- The decorated query answer, from the three parallel result lists. -/
def zipQueryResults (documents : List String) (distances : List ℚ)
    (metadatas : List (List (String × String))) : List RelevantDoc :=
  zipAllDocs (documents.zip distances) metadatas

/-! ## Concrete inputs used by counterexamples and witnesses -/

/-- A legal text with exactly one disqualifying-pattern match. -/
def sportText : String :=
  "статья 5 закона республики беларусь о спорте устанавливает правила."

/-- A text consisting of seven disqualifying-pattern matches. -/
def junkText : String :=
  "рецепт кулинар готовить спорт футбол хоккей погода"

/-- A text maximising all three component scores together with both bonuses. -/
def uncappedText : String :=
  "1. статья 5 от 01.01.2020 № 7 в соответствии с согласно на основании в порядке не позднее в течение подлежит обязан вправе имеет право несет ответственность установленный предусмотренный определенный указанный"

/-- A URL containing every URL marker of `_calculate_legal_score`. -/
def uncappedUrl : String :=
  "pravo.by/law/legal/юридический/право/закон/government/министерство/комитет/совет"

/-- An ordinary admissible legal text with no disqualifying matches. -/
def okText : String :=
  "закон республики беларусь устанавливает порядок и правила поведения граждан"

/-- Characterisation helper (not itself part of the source): the effect of
one `check_for_changes` iteration on the record of the URL it processes,
as a function of that record alone. -/
def afterCheck (env : ScrapeEnv) (now : Nat) (u : String) :
    Option PageRecord → Option PageRecord
  | none => none
  | some r =>
    if now - r.lastCheck < 24 then some r
    else
      match env.fetch u with
      | none => some r
      | some f =>
        some { r with lastCheck := now,
                      contentHash := getContentHash env.md5 f.content,
                      title := f.title }

/-- A concrete environment whose every fetch fails. -/
def envFailFetch : ScrapeEnv :=
  { md5 := id, domain := id, fetch := fun _ => none, links := fun _ => [] }

/-- A concrete environment whose every fetch yields the same page. -/
def envFetchOk : ScrapeEnv :=
  { md5 := id, domain := id,
    fetch := fun _ => some { title := "заголовок", content := "закон" },
    links := fun _ => [] }

/-- A concrete stale page record used by scraper witnesses. -/
def staleRec : PageRecord :=
  { contentHash := "старый", title := "т", lastCheck := 0,
    lastScraped := none, contentLength := 0 }

/-- A page body long enough to survive the 100-character minimum. -/
def longPage : String :=
  "закон республики беларусь устанавливает порядок и правила поведения граждан и организаций на всей территории страны"

/-- A concrete environment whose every fetch yields the same long page. -/
def envFetchLong : ScrapeEnv :=
  { md5 := id, domain := id,
    fetch := fun _ => some { title := "т", content := longPage },
    links := fun _ => [] }

/-! # Theorems -/

/-! ### Retrieval filtering: helper lemmas -/

theorem buildRelevantDocs_eq_filter (pairs : List (String × ℚ))
    (ms : List (List (String × String))) :
    buildRelevantDocs pairs ms
      = (zipAllDocs pairs ms).filter (fun d => decide (d.distance < 9/10)) := by
  induction pairs generalizing ms with
  | nil => simp [buildRelevantDocs, zipAllDocs]
  | cons p rest ih =>
    obtain ⟨doc, dist⟩ := p
    simp only [buildRelevantDocs, zipAllDocs, List.filter]
    rw [ih]
    by_cases h : dist < 9/10
    · simp [h]
    · simp [h]

theorem mem_zipAllDocs_distance (d : RelevantDoc) :
    ∀ (pairs : List (String × ℚ)) (ms : List (List (String × String))),
      d ∈ zipAllDocs pairs ms → ∃ p ∈ pairs, d.distance = p.2 := by
  intro pairs
  induction pairs with
  | nil => intro ms h; simp [zipAllDocs] at h
  | cons p rest ih =>
    intro ms h
    obtain ⟨doc, dist⟩ := p
    simp only [zipAllDocs, List.mem_cons] at h
    rcases h with h | h
    · exact ⟨(doc, dist), List.mem_cons_self _ _, by rw [h]⟩
    · obtain ⟨q, hq, hd⟩ := ih ms.tail h
      exact ⟨q, List.mem_cons_of_mem _ hq, hd⟩

/-- C9: every document returned by `search_relevant_docs` has distance
strictly below 0.9; the returned list is an order-preserving sublist of the
store's decorated query answer; and whenever every returned distance is at
least 0.9 the result is empty, even though the store itself returned
matches. -/
theorem C9_theorem (q : String) (cc : Nat) (docs : List String) (dists : List ℚ)
    (metas : List (List (String × String))) :
    (∀ d ∈ searchRelevantDocs q cc docs dists metas, d.distance < 9/10) ∧
    List.Sublist (searchRelevantDocs q cc docs dists metas)
      (zipQueryResults docs dists metas) ∧
    ((∀ x ∈ dists, 9/10 ≤ x) → searchRelevantDocs q cc docs dists metas = []) := by
  unfold searchRelevantDocs
  by_cases h1 : q = "" ∨ pyStrip q.data = []
  · rw [if_pos h1]
    simp
  · rw [if_neg h1]
    by_cases h2 : cc = 0
    · rw [if_pos h2]
      simp
    · rw [if_neg h2, buildRelevantDocs_eq_filter]
      refine ⟨?_, ?_, ?_⟩
      · intro d hd
        have := List.of_mem_filter hd
        exact of_decide_eq_true this
      · simp only [zipQueryResults]
        exact List.filter_sublist _
      · intro hall
        rw [List.filter_eq_nil_iff]
        intro d hd
        obtain ⟨p, hp, hdist⟩ := mem_zipAllDocs_distance d _ _ hd
        have hx : p.2 ∈ dists := (List.of_mem_zip hp).2
        have := hall _ hx
        simp only [decide_eq_true_eq]
        rw [hdist]
        exact not_lt.mpr this

/-- Witness for C9 at a concrete query answer whose only match is at
distance 0.95: the result list is empty. -/
theorem C9_witness :
    (∀ x ∈ [(19 : ℚ)/20], 9/10 ≤ x) ∧
    searchRelevantDocs "аренда" 1 ["документ"] [19/20] [] = [] :=
  ⟨by decide, (C9_theorem ("аренда") 1 ["документ"] [19/20] []).2.2 (by decide)⟩

/-! ### Quality gate: C1 and C3 -/

/-- C1 is refuted as stated: the query consisting of the bot marker
alone is not procedural, the store answer is non-empty with best distance
0.8 above the 0.6 threshold, yet `should_use_dynamic_search` returns
`needs_fallback = false` because bot-related queries bypass the distance
gate. -/
theorem C1_counterexample :
    isProceduralQuery "бот" = false ∧
    searchRelevantDocs "бот" 1 ["документ"] [4/5] [] ≠ [] ∧
    3/5 < bestDistanceOf (searchRelevantDocs "бот" 1 ["документ"] [4/5] []) ∧
    (shouldUseDynamicSearch "бот" 1 ["документ"] [4/5] []).1 = false := by
  refine ⟨by decide, by decide, by decide, by decide⟩

/-- C1 (amended): for a query that is neither procedural nor bot-related,
`needs_fallback` holds exactly when the filtered result list is empty or its
minimum distance exceeds 0.6, and the filtered documents are returned either
way. -/
theorem C1_amended_theorem (q : String) (cc : Nat) (docs : List String)
    (dists : List ℚ) (metas : List (List (String × String)))
    (hp : isProceduralQuery q = false) (hb : isBotRelatedQuery q = false) :
    ((shouldUseDynamicSearch q cc docs dists metas).1 = true ↔
      (searchRelevantDocs q cc docs dists metas = [] ∨
        3/5 < bestDistanceOf (searchRelevantDocs q cc docs dists metas))) ∧
    (shouldUseDynamicSearch q cc docs dists metas).2
      = searchRelevantDocs q cc docs dists metas := by
  unfold shouldUseDynamicSearch
  cases h : searchRelevantDocs q cc docs dists metas with
  | nil => simp
  | cons best rest =>
    simp only [hb, hp, Bool.false_eq_true, if_false]
    by_cases hd : 3/5 < bestDistanceOf (best :: rest)
    · simp [hd]
    · simp [hd]

/-- Witness for C1 (amended) at a neutral query with a good match at
distance 0.5: no fallback, documents returned. -/
theorem C1_witness :
    isProceduralQuery "налоги" = false ∧ isBotRelatedQuery "налоги" = false ∧
    (((shouldUseDynamicSearch "налоги" 1 ["закон о налогах"] [1/2] []).1 = true ↔
      (searchRelevantDocs "налоги" 1 ["закон о налогах"] [1/2] [] = [] ∨
        3/5 < bestDistanceOf (searchRelevantDocs "налоги" 1 ["закон о налогах"] [1/2] []))) ∧
    (shouldUseDynamicSearch "налоги" 1 ["закон о налогах"] [1/2] []).2
      = searchRelevantDocs "налоги" 1 ["закон о налогах"] [1/2] []) :=
  ⟨by decide, by decide,
    C1_amended_theorem ("налоги") 1 ["закон о налогах"] [1/2] [] (by decide) (by decide)⟩

/-- C3 is refuted as stated: a procedural query that also contains a bot
marker keeps the knowledge-base answer even though the best distance 0.5
exceeds 0.35 and the best chunk has no procedural markers, because the
bot-keyword branch runs first. -/
theorem C3_counterexample :
    isProceduralQuery "как получить ошибка" = true ∧
    searchRelevantDocs "как получить ошибка" 1 ["общие сведения"] [1/2] [] ≠ [] ∧
    7/20 < bestDistanceOf (searchRelevantDocs "как получить ошибка" 1 ["общие сведения"] [1/2] []) ∧
    (shouldUseDynamicSearch "как получить ошибка" 1 ["общие сведения"] [1/2] []).1 = false := by
  refine ⟨by decide, by decide, by decide, by decide⟩

/-- C3 (amended): for a procedural query that is not bot-related and a
non-empty filtered result, `needs_fallback` holds exactly when the first
(best-ranked) chunk lacks procedural-content markers or the minimum distance
exceeds 0.35; the filtered documents are returned either way. -/
theorem C3_amended_theorem (q : String) (cc : Nat) (docs : List String)
    (dists : List ℚ) (metas : List (List (String × String)))
    (hp : isProceduralQuery q = true) (hb : isBotRelatedQuery q = false)
    (hne : searchRelevantDocs q cc docs dists metas ≠ []) :
    ((shouldUseDynamicSearch q cc docs dists metas).1 = true ↔
      (hasProceduralContent
          ((searchRelevantDocs q cc docs dists metas).headD ⟨"", [], 0⟩) = false ∨
        7/20 < bestDistanceOf (searchRelevantDocs q cc docs dists metas))) ∧
    (shouldUseDynamicSearch q cc docs dists metas).2
      = searchRelevantDocs q cc docs dists metas := by
  unfold shouldUseDynamicSearch
  cases h : searchRelevantDocs q cc docs dists metas with
  | nil => exact absurd h hne
  | cons best rest =>
    simp only [hb, hp, Bool.false_eq_true, if_false, if_true, List.headD]
    by_cases hc : hasProceduralContent best
    · by_cases hd : 7/20 < bestDistanceOf (best :: rest)
      · simp [hc, hd]
      · simp [hc, hd]
    · simp [hc]

/-- Witness for C3 (amended) at a procedural query whose best chunk carries
procedural markers at distance 0.2: no fallback. -/
theorem C3_witness :
    isProceduralQuery "как получить справку" = true ∧
    isBotRelatedQuery "как получить справку" = false ∧
    searchRelevantDocs "как получить справку" 1 ["порядок подачи заявления"] [1/5] [] ≠ [] ∧
    (((shouldUseDynamicSearch "как получить справку" 1 ["порядок подачи заявления"] [1/5] []).1 = true ↔
      (hasProceduralContent
          ((searchRelevantDocs "как получить справку" 1 ["порядок подачи заявления"] [1/5] []).headD ⟨"", [], 0⟩) = false ∨
        7/20 < bestDistanceOf (searchRelevantDocs "как получить справку" 1 ["порядок подачи заявления"] [1/5] []))) ∧
    (shouldUseDynamicSearch "как получить справку" 1 ["порядок подачи заявления"] [1/5] []).2
      = searchRelevantDocs "как получить справку" 1 ["порядок подачи заявления"] [1/5] []) :=
  ⟨by decide, by decide, by decide,
    C3_amended_theorem ("как получить справку") 1 ["порядок подачи заявления"] [1/5] []
      (by decide) (by decide) (by decide)⟩

/-! ### Relevance gate: C2 and C4 -/

/-- C2 is refuted as stated: `sportText` matches the disqualifying pattern
for sport, yet the gate admits it, because a single match only contributes
0.1 to the non-legal score and rejection needs more than 0.5. -/
theorem C2_counterexample :
    nonLegalPatterns.any
      (fun p => hasMatch p (lowerList ((("" : String) ++ " " ++ sportText).data))) = true ∧
    (isLegalContent sportText "" "").1 = true := by
  refine ⟨by decide, by decide⟩

/-- C2 (amended): whenever the non-legal score of the combined
title-plus-text exceeds 0.5 — that is, the disqualifying patterns match at
least six times — the gate rejects the input outright, whatever the other
scores, before the weighted sum is computed. -/
theorem C2_amended_theorem (text title url : String)
    (h : 1/2 < calcNonLegalScore (lowerList ((title ++ " " ++ text).data))) :
    (isLegalContent text title url).1 = false := by
  unfold isLegalContent
  by_cases h0 : text = "" ∨ (pyStrip text.data).length < 50
  · rw [if_pos h0]
  · rw [if_neg h0]
    simp only [gt_iff_lt]
    rw [if_pos h]

/-- Witness for C2 (amended): seven disqualifying matches give non-legal
score 0.7 and the text is rejected. -/
theorem C2_witness :
    (1/2 : ℚ) < calcNonLegalScore (lowerList ((("" : String) ++ " " ++ junkText).data)) ∧
    (isLegalContent junkText "" "").1 = false :=
  ⟨by decide, C2_amended_theorem junkText ("") ("") (by decide)⟩

/-- C4 is refuted as stated: on `uncappedText` (which passes the exclusion
check) the final score is 23/20 > 1, so the sum of the weighted components
and the two bonuses is not capped at 1.0. -/
theorem C4_counterexample :
    calcNonLegalScore (lowerList ((("" : String) ++ " " ++ uncappedText).data)) ≤ 1/2 ∧
    (isLegalContent uncappedText "" uncappedUrl).2 = 23/20 ∧
    (1 : ℚ) < (isLegalContent uncappedText "" uncappedUrl).2 := by
  refine ⟨by decide, by decide, by decide⟩

/-- C4 (amended): for an input passing the length check and the exclusion
check, the final score equals
0.6·keyword/pattern + 0.25·structural + 0.15·terminology plus the 0.1
jurisdiction bonus and the 0.05 official-document bonus when present, with
no cap, and the input is admissible exactly when this score is at
least 0.20. -/
theorem C4_amended_theorem (text title url : String)
    (h1 : text ≠ "") (h2 : 50 ≤ (pyStrip text.data).length)
    (h3 : calcNonLegalScore (lowerList ((title ++ " " ++ text).data)) ≤ 1/2) :
    (isLegalContent text title url).2 = specFinalScore text title url ∧
    ((isLegalContent text title url).1 = true ↔
      1/5 ≤ specFinalScore text title url) := by
  have h0 : ¬ (text = "" ∨ (pyStrip text.data).length < 50) := by
    push_neg
    exact ⟨h1, by omega⟩
  constructor
  · unfold isLegalContent specFinalScore
    rw [if_neg h0]
    simp only [gt_iff_lt]
    rw [if_neg (not_lt.mpr h3)]
    split_ifs <;> ring
  · unfold isLegalContent specFinalScore
    rw [if_neg h0]
    simp only [gt_iff_lt]
    rw [if_neg (not_lt.mpr h3)]
    split_ifs <;> simp only [ge_iff_le, decide_eq_true_eq] <;> constructor <;>
      intro hh <;> linarith

/-- Witness for C4 (amended) at a plain admissible text. -/
theorem C4_witness :
    okText ≠ "" ∧ 50 ≤ (pyStrip okText.data).length ∧
    calcNonLegalScore (lowerList ((("" : String) ++ " " ++ okText).data)) ≤ 1/2 ∧
    ((isLegalContent okText "" "").2 = specFinalScore okText "" "" ∧
      ((isLegalContent okText "" "").1 = true ↔
        1/5 ≤ specFinalScore okText "" "")) :=
  ⟨by decide, by decide, by decide,
    C4_amended_theorem okText "" "" (by decide) (by decide) (by decide)⟩

/-! ### Fingerprint normalisation: C8 -/

theorem wordsAux_spaces (ws : List Char) (hws : ∀ c ∈ ws, isPySpace c = true) :
    ∀ acc : List Char, wordsAux ws acc = if acc.isEmpty then [] else [acc.reverse] := by
  induction ws with
  | nil => intro acc; rfl
  | cons c cs ih =>
    intro acc
    have hc : isPySpace c = true := hws c (List.mem_cons_self _ _)
    have hcs : ∀ x ∈ cs, isPySpace x = true := fun x hx => hws x (List.mem_cons_of_mem _ hx)
    simp only [wordsAux, hc, if_true]
    by_cases ha : acc.isEmpty
    · rw [if_pos ha, if_pos ha, ih hcs []]
      rfl
    · rw [if_neg ha, if_neg ha, ih hcs []]
      rfl

theorem wordsAux_append_spaces (ws : List Char) (hws : ∀ c ∈ ws, isPySpace c = true) :
    ∀ (xs acc : List Char), wordsAux (xs ++ ws) acc = wordsAux xs acc := by
  intro xs
  induction xs with
  | nil =>
    intro acc
    rw [List.nil_append, wordsAux_spaces ws hws acc]
    rfl
  | cons x xs ih =>
    intro acc
    simp only [List.cons_append, wordsAux]
    by_cases hx : isPySpace x
    · simp only [hx, if_true]
      by_cases ha : acc.isEmpty
      · rw [if_pos ha, if_pos ha]
        exact ih []
      · rw [if_neg ha, if_neg ha]
        exact congrArg (acc.reverse :: ·) (ih [])
    · simp only [hx, Bool.false_eq_true, if_false]
      exact ih (x :: acc)

theorem wordsAux_dropWhile (l : List Char) :
    wordsAux (l.dropWhile isPySpace) [] = wordsAux l [] := by
  induction l with
  | nil => rfl
  | cons c cs ih =>
    by_cases hc : isPySpace c
    · rw [List.dropWhile_cons_of_pos hc, ih]
      simp [wordsAux, hc, List.isEmpty]
    · rw [List.dropWhile_cons_of_neg hc]

theorem pyWords_pyStrip (l : List Char) : pyWords (pyStrip l) = pyWords l := by
  unfold pyStrip pyWords
  set a := l.dropWhile isPySpace with ha
  have hsplit : a.reverse.takeWhile isPySpace ++ a.reverse.dropWhile isPySpace = a.reverse :=
    List.takeWhile_append_dropWhile isPySpace a.reverse
  have hrec : a = (a.reverse.dropWhile isPySpace).reverse
      ++ (a.reverse.takeWhile isPySpace).reverse := by
    have := congrArg List.reverse hsplit
    rw [List.reverse_append, List.reverse_reverse] at this
    exact this.symm
  have hspaces : ∀ c ∈ (a.reverse.takeWhile isPySpace).reverse, isPySpace c = true := by
    intro c hc
    rw [List.mem_reverse] at hc
    exact List.mem_takeWhile_imp hc
  calc wordsAux (a.reverse.dropWhile isPySpace).reverse []
      = wordsAux ((a.reverse.dropWhile isPySpace).reverse
          ++ (a.reverse.takeWhile isPySpace).reverse) [] :=
        (wordsAux_append_spaces _ hspaces _ _).symm
    _ = wordsAux a [] := by rw [← hrec]
    _ = wordsAux l [] := wordsAux_dropWhile l

/-- C8: the fingerprint of `_get_content_hash` is a function of the
case-folded word sequence of the text alone, so two texts that differ only
in letter case and in the amount or kind of whitespace separating their
words (including leading and trailing whitespace) always receive the same
fingerprint, for any hash primitive. -/
theorem C8_theorem (md5 : String → String) (t1 t2 : String)
    (h : pyWords (lowerList t1.data) = pyWords (lowerList t2.data)) :
    getContentHash md5 t1 = getContentHash md5 t2 := by
  unfold getContentHash pyNormalize
  rw [pyWords_pyStrip, pyWords_pyStrip, h]

/-- Witness for C8: a case- and whitespace-variant pair gets equal
fingerprints (hash primitive instantiated with the identity). -/
theorem C8_witness :
    pyWords (lowerList " Закон  РБ ".data) = pyWords (lowerList "закон рб".data) ∧
    getContentHash id " Закон  РБ " = getContentHash id "закон рб" :=
  ⟨by decide, C8_theorem id " Закон  РБ " "закон рб" (by decide)⟩

/-! ### Association-list lemmas for the fingerprint store -/

theorem lookupA_setA_self {β : Type} (m : List (String × β)) (k : String) (v : β)
    (h : (lookupA m k).isSome) : lookupA (setA m k v) k = some v := by
  induction m with
  | nil => simp [lookupA] at h
  | cons kv rest ih =>
    by_cases hk : kv.1 = k
    · simp [setA, lookupA, hk]
    · simp only [lookupA, if_neg hk] at h
      simp only [setA, List.map_cons, if_neg hk, lookupA, if_neg hk]
      exact ih h

theorem lookupA_setA_other {β : Type} (m : List (String × β)) (k k2 : String) (v : β)
    (h : k2 ≠ k) : lookupA (setA m k v) k2 = lookupA m k2 := by
  induction m with
  | nil => rfl
  | cons kv rest ih =>
    by_cases hk : kv.1 = k
    · simp only [setA, List.map_cons, if_pos hk, lookupA]
      rw [if_neg (by rw [hk]; exact fun e => h e.symm), if_neg (by rw [hk]; exact fun e => h e.symm)]
      exact ih
    · simp only [setA, List.map_cons, if_neg hk, lookupA]
      by_cases hk2 : kv.1 = k2
      · rw [if_pos hk2, if_pos hk2]
      · rw [if_neg hk2, if_neg hk2]
        exact ih

theorem mapfst_setA {β : Type} (m : List (String × β)) (k : String) (v : β) :
    (setA m k v).map Prod.fst = m.map Prod.fst := by
  induction m with
  | nil => rfl
  | cons kv rest ih =>
    by_cases hk : kv.1 = k
    · simp only [setA, List.map_cons, if_pos hk]
      exact congrArg (kv.1 :: ·) ih
    · simp only [setA, List.map_cons, if_neg hk]
      exact congrArg (kv.1 :: ·) ih

theorem lookupA_isSome_iff {β : Type} (m : List (String × β)) (k : String) :
    (lookupA m k).isSome ↔ k ∈ m.map Prod.fst := by
  induction m with
  | nil => simp [lookupA]
  | cons kv rest ih =>
    by_cases hk : kv.1 = k
    · simp [lookupA, hk]
    · simp only [lookupA, if_neg hk, List.map_cons, List.mem_cons, ih]
      constructor
      · intro hh; exact Or.inr hh
      · rintro (hh | hh)
        · exact absurd hh.symm hk
        · exact hh

theorem lookupA_append_none {β : Type} (m l : List (String × β)) (k : String)
    (h : lookupA m k = none) : lookupA (m ++ l) k = lookupA l k := by
  induction m with
  | nil => rfl
  | cons kv rest ih =>
    by_cases hk : kv.1 = k
    · simp [lookupA, hk] at h
    · simp only [lookupA, if_neg hk] at h
      simp only [List.cons_append, lookupA, if_neg hk]
      exact ih h

theorem lookupA_insertA_self {β : Type} (m : List (String × β)) (k : String) (v : β) :
    lookupA (insertA m k v) k = some v := by
  unfold insertA
  cases h : lookupA m k with
  | some w =>
    exact lookupA_setA_self m k v (by rw [h]; rfl)
  | none =>
    rw [lookupA_append_none m _ k h]
    simp [lookupA]

theorem lookupA_insertA_other {β : Type} (m : List (String × β)) (k k2 : String) (v : β)
    (h : k2 ≠ k) : lookupA (insertA m k v) k2 = lookupA m k2 := by
  unfold insertA
  cases hm : lookupA m k with
  | some w => exact lookupA_setA_other m k k2 v h
  | none =>
    induction m with
    | nil =>
      simp only [List.nil_append, lookupA]
      rw [if_neg (fun e => h e.symm)]
    | cons kv rest ih =>
      by_cases hk : kv.1 = k
      · simp [lookupA, hk] at hm
      · simp only [lookupA, if_neg hk] at hm
        simp only [List.cons_append, lookupA]
        by_cases hk2 : kv.1 = k2
        · rw [if_pos hk2, if_pos hk2]
        · rw [if_neg hk2, if_neg hk2]
          exact ih hm

theorem lookupA_removeA_other {β : Type} (m : List (String × β)) (k k2 : String)
    (h : k2 ≠ k) : lookupA (removeA m k) k2 = lookupA m k2 := by
  induction m with
  | nil => rfl
  | cons kv rest ih =>
    by_cases hk : kv.1 = k
    · simp only [removeA, List.filter]
      rw [show (decide (kv.1 ≠ k)) = false by simp [hk]]
      simp only [lookupA]
      rw [if_neg (by rw [hk]; exact fun e => h e.symm)]
      exact ih
    · simp only [removeA, List.filter]
      rw [show (decide (kv.1 ≠ k)) = true by simp [hk]]
      simp only [lookupA]
      by_cases hk2 : kv.1 = k2
      · rw [if_pos hk2, if_pos hk2]
      · rw [if_neg hk2, if_neg hk2]
        exact ih

theorem lookupA_foldl_removeA {β : Type} (dl : List String) (m : List (String × β))
    (u : String) (h : ¬ u ∈ dl) :
    lookupA (dl.foldl (fun acc x => removeA acc x) m) u = lookupA m u := by
  induction dl generalizing m with
  | nil => rfl
  | cons d rest ih =>
    simp only [List.mem_cons, not_or] at h
    simp only [List.foldl_cons]
    rw [ih _ h.2, lookupA_removeA_other m d u h.1]

/-! ### Change detection: characterisation of `check_for_changes` -/

theorem afterCheck_none_iff (env : ScrapeEnv) (now : Nat) (u : String)
    (x : Option PageRecord) : afterCheck env now u x = none ↔ x = none := by
  cases x with
  | none => simp [afterCheck]
  | some r =>
    simp only [afterCheck]
    by_cases hfresh : now - r.lastCheck < 24
    · simp [hfresh]
    · cases hf : env.fetch u <;> simp [hfresh, hf]

theorem afterCheck_idem (env : ScrapeEnv) (now : Nat) (u : String)
    (x : Option PageRecord) :
    afterCheck env now u (afterCheck env now u x) = afterCheck env now u x := by
  cases x with
  | none => rfl
  | some r =>
    by_cases hfresh : now - r.lastCheck < 24
    · simp [afterCheck, hfresh]
    · cases hf : env.fetch u with
      | none => simp [afterCheck, hfresh, hf]
      | some f =>
        simp [afterCheck, hfresh, hf]

theorem afterCheck_not_changed (env : ScrapeEnv) (now : Nat) (u : String)
    (x : Option PageRecord) :
    ¬ ∃ r, afterCheck env now u x = some r ∧ 24 ≤ now - r.lastCheck ∧
      ∃ f, env.fetch u = some f ∧
        r.contentHash ≠ getContentHash env.md5 f.content := by
  rintro ⟨r, hr, hdue, f, hf, hne⟩
  cases x with
  | none => simp [afterCheck] at hr
  | some r0 =>
    simp only [afterCheck] at hr
    by_cases hfresh : now - r0.lastCheck < 24
    · rw [if_pos hfresh] at hr
      cases hr
      omega
    · rw [if_neg hfresh, hf] at hr
      cases hr
      simp at hne

theorem afterCheck_gone_iff (env : ScrapeEnv) (now : Nat) (u : String)
    (x : Option PageRecord) :
    (∃ r, afterCheck env now u x = some r ∧ 24 ≤ now - r.lastCheck ∧
       env.fetch u = none) ↔
    (∃ r, x = some r ∧ 24 ≤ now - r.lastCheck ∧ env.fetch u = none) := by
  cases x with
  | none => simp [afterCheck]
  | some r0 =>
    simp only [afterCheck]
    by_cases hfresh : now - r0.lastCheck < 24
    · simp [hfresh]
    · cases hf : env.fetch u with
      | none => simp [hfresh, hf]
      | some f => simp [hfresh, hf]

theorem checkStep_other (env : ScrapeEnv) (now : Nat) (acc : CheckAcc) (v u : String)
    (hvu : v ≠ u) :
    lookupA (checkStep env now acc v).pages u = lookupA acc.pages u ∧
    (u ∈ (checkStep env now acc v).newP ↔ u ∈ acc.newP) ∧
    (u ∈ (checkStep env now acc v).changedP ↔ u ∈ acc.changedP) ∧
    (u ∈ (checkStep env now acc v).deletedP ↔ u ∈ acc.deletedP) := by
  have hne : u ≠ v := fun e => hvu e.symm
  unfold checkStep
  cases hre : lookupA acc.pages v with
  | none =>
    refine ⟨rfl, ?_, Iff.rfl, Iff.rfl⟩
    simp [List.mem_append, hne]
  | some r =>
    dsimp only
    by_cases hfresh : now - r.lastCheck < 24
    · rw [if_pos hfresh]
      exact ⟨rfl, Iff.rfl, Iff.rfl, Iff.rfl⟩
    · rw [if_neg hfresh]
      cases hf : env.fetch v with
      | none =>
        refine ⟨rfl, Iff.rfl, Iff.rfl, ?_⟩
        simp [List.mem_append, hne]
      | some f =>
        dsimp only
        by_cases hh : r.contentHash ≠ getContentHash env.md5 f.content
        · rw [if_pos hh]
          refine ⟨lookupA_setA_other _ v u _ hne, Iff.rfl, ?_, Iff.rfl⟩
          simp [List.mem_append, hne]
        · rw [if_neg hh]
          exact ⟨lookupA_setA_other _ v u _ hne, Iff.rfl, Iff.rfl, Iff.rfl⟩

theorem checkStep_self (env : ScrapeEnv) (now : Nat) (acc : CheckAcc) (u : String) :
    lookupA (checkStep env now acc u).pages u
        = afterCheck env now u (lookupA acc.pages u) ∧
    (u ∈ (checkStep env now acc u).newP ↔
      u ∈ acc.newP ∨ lookupA acc.pages u = none) ∧
    (u ∈ (checkStep env now acc u).changedP ↔ u ∈ acc.changedP ∨
      (∃ r, lookupA acc.pages u = some r ∧ 24 ≤ now - r.lastCheck ∧
        ∃ f, env.fetch u = some f ∧
          r.contentHash ≠ getContentHash env.md5 f.content)) ∧
    (u ∈ (checkStep env now acc u).deletedP ↔ u ∈ acc.deletedP ∨
      (∃ r, lookupA acc.pages u = some r ∧ 24 ≤ now - r.lastCheck ∧
        env.fetch u = none)) := by
  unfold checkStep
  cases hre : lookupA acc.pages u with
  | none =>
    refine ⟨?_, ?_, ?_, ?_⟩
    · dsimp only
      simp only [afterCheck]
      exact hre
    · simp [List.mem_append]
    · simp
    · simp
  | some r =>
    dsimp only
    by_cases hfresh : now - r.lastCheck < 24
    · rw [if_pos hfresh]
      have hnd : ¬ 24 ≤ now - r.lastCheck := by omega
      refine ⟨?_, ?_, ?_, ?_⟩
      · simp [afterCheck, hfresh, hre]
      · simp
      · simp [hnd]
      · simp [hnd]
    · rw [if_neg hfresh]
      have hd : 24 ≤ now - r.lastCheck := by omega
      cases hf : env.fetch u with
      | none =>
        refine ⟨?_, ?_, ?_, ?_⟩
        · simp [afterCheck, hfresh, hf, hre]
        · simp
        · simp [hf]
        · simp [List.mem_append, hd, hf]
      | some f =>
        dsimp only
        by_cases hh : r.contentHash ≠ getContentHash env.md5 f.content
        · rw [if_pos hh]
          refine ⟨?_, ?_, ?_, ?_⟩
          · rw [lookupA_setA_self _ _ _ (by rw [hre]; rfl)]
            simp [afterCheck, hfresh, hf]
          · simp
          · simp only [List.mem_append, List.mem_singleton]
            constructor
            · intro _
              exact Or.inr ⟨r, rfl, hd, f, rfl, hh⟩
            · intro _
              simp
          · simp [hf]
        · rw [if_neg hh]
          refine ⟨?_, ?_, ?_, ?_⟩
          · rw [lookupA_setA_self _ _ _ (by rw [hre]; rfl)]
            simp [afterCheck, hfresh, hf]
          · simp
          · simp only [not_not] at hh
            simp [hh]
          · simp [hf]

theorem checkStep_keys (env : ScrapeEnv) (now : Nat) (acc : CheckAcc) (v : String) :
    (checkStep env now acc v).pages.map Prod.fst = acc.pages.map Prod.fst := by
  unfold checkStep
  cases hre : lookupA acc.pages v with
  | none => rfl
  | some r =>
    dsimp only
    by_cases hfresh : now - r.lastCheck < 24
    · rw [if_pos hfresh]
    · rw [if_neg hfresh]
      cases hf : env.fetch v with
      | none => rfl
      | some f =>
        dsimp only
        by_cases hh : r.contentHash ≠ getContentHash env.md5 f.content
        · rw [if_pos hh]
          exact mapfst_setA _ _ _
        · rw [if_neg hh]
          exact mapfst_setA _ _ _

theorem checkLoop_keys (env : ScrapeEnv) (now : Nat) :
    ∀ (urls : List String) (acc : CheckAcc),
      (checkLoop env now urls acc).pages.map Prod.fst = acc.pages.map Prod.fst := by
  intro urls
  induction urls with
  | nil => intro acc; rfl
  | cons v rest ih =>
    intro acc
    simp only [checkLoop]
    rw [ih, checkStep_keys]

set_option maxHeartbeats 2000000 in
/-- Full characterisation of the first loop of `check_for_changes`, for an
arbitrary URL `u`: membership of `u` in each output list, and the final
record of `u`, as functions of its initial record. -/
theorem checkLoop_spec (env : ScrapeEnv) (now : Nat) (u : String) :
    ∀ (urls : List String) (acc : CheckAcc),
      (u ∈ (checkLoop env now urls acc).newP ↔
        u ∈ acc.newP ∨ (u ∈ urls ∧ lookupA acc.pages u = none)) ∧
      (u ∈ (checkLoop env now urls acc).changedP ↔
        u ∈ acc.changedP ∨ (u ∈ urls ∧ ∃ r, lookupA acc.pages u = some r ∧
          24 ≤ now - r.lastCheck ∧ ∃ f, env.fetch u = some f ∧
          r.contentHash ≠ getContentHash env.md5 f.content)) ∧
      (u ∈ (checkLoop env now urls acc).deletedP ↔
        u ∈ acc.deletedP ∨ (u ∈ urls ∧ ∃ r, lookupA acc.pages u = some r ∧
          24 ≤ now - r.lastCheck ∧ env.fetch u = none)) ∧
      lookupA (checkLoop env now urls acc).pages u =
        (if u ∈ urls then afterCheck env now u (lookupA acc.pages u)
         else lookupA acc.pages u) := by
  intro urls
  induction urls with
  | nil =>
    intro acc
    simp [checkLoop]
  | cons v rest ih =>
    intro acc
    simp only [checkLoop]
    by_cases hvu : v = u
    · subst hvu
      obtain ⟨s1, s2, s3, s4⟩ := checkStep_self env now acc v
      obtain ⟨i1, i2, i3, i4⟩ := ih (checkStep env now acc v)
      refine ⟨?_, ?_, ?_, ?_⟩
      · rw [i1]
        rw [s2]
        rw [s1]
        rw [afterCheck_none_iff]
        constructor
        · rintro ((h | h) | ⟨hr, h⟩)
          · exact Or.inl h
          · exact Or.inr ⟨List.mem_cons_self v rest, h⟩
          · exact Or.inr ⟨List.mem_cons_of_mem v hr, h⟩
        · rintro (h | ⟨_, h⟩)
          · exact Or.inl (Or.inl h)
          · exact Or.inl (Or.inr h)
      · rw [i2, s3, s1]
        have hnc := afterCheck_not_changed env now v (lookupA acc.pages v)
        constructor
        · rintro ((h | h) | ⟨hr, h⟩)
          · exact Or.inl h
          · exact Or.inr ⟨List.mem_cons_self v rest, h⟩
          · exact absurd h hnc
        · rintro (h | ⟨_, h⟩)
          · exact Or.inl (Or.inl h)
          · exact Or.inl (Or.inr h)
      · rw [i3, s4, s1, afterCheck_gone_iff]
        constructor
        · rintro ((h | h) | ⟨hr, h⟩)
          · exact Or.inl h
          · exact Or.inr ⟨List.mem_cons_self v rest, h⟩
          · exact Or.inr ⟨List.mem_cons_of_mem v hr, h⟩
        · rintro (h | ⟨_, h⟩)
          · exact Or.inl (Or.inl h)
          · exact Or.inl (Or.inr h)
      · rw [i4, s1, if_pos (List.mem_cons_self v rest)]
        by_cases hmem : v ∈ rest
        · rw [if_pos hmem, afterCheck_idem]
        · rw [if_neg hmem]
    · have huv : u ≠ v := fun e => hvu e.symm
      obtain ⟨o1, o2, o3, o4⟩ := checkStep_other env now acc v u hvu
      obtain ⟨i1, i2, i3, i4⟩ := ih (checkStep env now acc v)
      refine ⟨?_, ?_, ?_, ?_⟩
      · rw [i1, o2, o1]
        constructor
        · rintro (h | ⟨hr, h⟩)
          · exact Or.inl h
          · exact Or.inr ⟨List.mem_cons_of_mem v hr, h⟩
        · rintro (h | ⟨hr, h⟩)
          · exact Or.inl h
          · rcases List.mem_cons.mp hr with he | hr2
            · exact absurd he huv
            · exact Or.inr ⟨hr2, h⟩
      · rw [i2, o3, o1]
        constructor
        · rintro (h | ⟨hr, h⟩)
          · exact Or.inl h
          · exact Or.inr ⟨List.mem_cons_of_mem v hr, h⟩
        · rintro (h | ⟨hr, h⟩)
          · exact Or.inl h
          · rcases List.mem_cons.mp hr with he | hr2
            · exact absurd he huv
            · exact Or.inr ⟨hr2, h⟩
      · rw [i3, o4, o1]
        constructor
        · rintro (h | ⟨hr, h⟩)
          · exact Or.inl h
          · exact Or.inr ⟨List.mem_cons_of_mem v hr, h⟩
        · rintro (h | ⟨hr, h⟩)
          · exact Or.inl h
          · rcases List.mem_cons.mp hr with he | hr2
            · exact absurd he huv
            · exact Or.inr ⟨hr2, h⟩
      · rw [i4, o1]
        by_cases hmem : u ∈ rest
        · rw [if_pos hmem, if_pos (List.mem_cons_of_mem v hmem)]
        · have hnc2 : ¬ u ∈ v :: rest := by
            intro hc
            rcases List.mem_cons.mp hc with he | h2
            · exact huv he
            · exact hmem h2
          rw [if_neg hmem, if_neg hnc2]

/-! ### Change detection: C5 and C10 -/

/-- C5 is refuted as stated: URL "a" is in the current urls list, yet
`check_for_changes` classifies it as deleted, because its re-check fetch
fails and the failure branch appends to the deleted list. -/
theorem C5_counterexample :
    "a" ∈ (["a"] : List String) ∧
    "a" ∈ (checkForChanges envFailFetch 100 [("a", staleRec)] ["a"]).1.2.2 := by
  refine ⟨by decide, by decide⟩

/-- C5 (amended): in the `check_for_changes` result, a URL is new exactly
when it is in the urls list with no stored record; changed exactly when it
is in the list with a record due for re-check whose freshly fetched
fingerprint differs from the stored one; and deleted exactly when it either
is in the list with a due record and a failing fetch, or has a record but is
absent from the urls list.  A fetched unchanged URL lands in no list. -/
theorem C5_amended_theorem (env : ScrapeEnv) (now : Nat)
    (pages : List (String × PageRecord)) (urls : List String) (u : String) :
    (u ∈ (checkForChanges env now pages urls).1.1 ↔
      u ∈ urls ∧ lookupA pages u = none) ∧
    (u ∈ (checkForChanges env now pages urls).1.2.1 ↔
      u ∈ urls ∧ ∃ r, lookupA pages u = some r ∧ 24 ≤ now - r.lastCheck ∧
        ∃ f, env.fetch u = some f ∧
          r.contentHash ≠ getContentHash env.md5 f.content) ∧
    (u ∈ (checkForChanges env now pages urls).1.2.2 ↔
      ((u ∈ urls ∧ ∃ r, lookupA pages u = some r ∧ 24 ≤ now - r.lastCheck ∧
          env.fetch u = none) ∨
        ((lookupA pages u).isSome ∧ ¬ u ∈ urls))) := by
  obtain ⟨m1, m2, m3, m4⟩ := checkLoop_spec env now u urls
    { newP := [], changedP := [], deletedP := [], pages := pages }
  unfold checkForChanges
  dsimp only
  refine ⟨?_, ?_, ?_⟩
  · rw [m1]
    constructor
    · rintro (h | h)
      · exact absurd h (List.not_mem_nil u)
      · exact h
    · exact Or.inr
  · rw [m2]
    constructor
    · rintro (h | h)
      · exact absurd h (List.not_mem_nil u)
      · exact h
    · exact Or.inr
  · rw [List.mem_append, m3]
    have hkeys := checkLoop_keys env now urls
      { newP := [], changedP := [], deletedP := [], pages := pages }
    constructor
    · rintro ((h | h) | h)
      · exact absurd h (List.not_mem_nil u)
      · exact Or.inl h
      · rw [List.mem_filter] at h
        obtain ⟨hmem, hc⟩ := h
        rw [hkeys] at hmem
        rw [decide_eq_true_eq] at hc
        exact Or.inr ⟨(lookupA_isSome_iff pages u).mpr hmem,
          fun hu => hc (List.elem_iff.mpr hu)⟩
    · rintro (h | ⟨hsome, hnot⟩)
      · exact Or.inl (Or.inr h)
      · refine Or.inr (List.mem_filter.mpr ⟨?_, ?_⟩)
        · rw [hkeys]
          exact (lookupA_isSome_iff pages u).mp hsome
        · rw [decide_eq_true_eq]
          exact fun hc => hnot (List.elem_iff.mp hc)

/-- C10: a due, successfully fetched URL has its stored fingerprint
overwritten with the live content's fingerprint and its check time renewed
during `check_for_changes`, even when it was just classified changed; an
immediately repeated check therefore leaves it out of all three lists. -/
theorem C10_theorem (env : ScrapeEnv) (now : Nat)
    (pages : List (String × PageRecord)) (urls : List String) (u : String)
    (r : PageRecord) (f : Fetched)
    (hr : lookupA pages u = some r) (hdue : 24 ≤ now - r.lastCheck)
    (hf : env.fetch u = some f) (hu : u ∈ urls) :
    (∃ r2, lookupA (checkForChanges env now pages urls).2 u = some r2 ∧
      r2.contentHash = getContentHash env.md5 f.content ∧ r2.lastCheck = now) ∧
    ¬ u ∈ (checkForChanges env now (checkForChanges env now pages urls).2 urls).1.1 ∧
    ¬ u ∈ (checkForChanges env now (checkForChanges env now pages urls).2 urls).1.2.1 ∧
    ¬ u ∈ (checkForChanges env now (checkForChanges env now pages urls).2 urls).1.2.2 := by
  have hfresh : ¬ now - r.lastCheck < 24 := by omega
  obtain ⟨m1, m2, m3, m4⟩ := checkLoop_spec env now u urls
    { newP := [], changedP := [], deletedP := [], pages := pages }
  have hstate2 : lookupA (checkLoop env now urls
      { newP := [], changedP := [], deletedP := [], pages := pages }).pages u
      = some { r with lastCheck := now,
                      contentHash := getContentHash env.md5 f.content,
                      title := f.title } := by
    rw [m4, if_pos hu, hr]
    simp [afterCheck, hfresh, hf]
  have hstate : lookupA (checkForChanges env now pages urls).2 u
      = some { r with lastCheck := now,
                      contentHash := getContentHash env.md5 f.content,
                      title := f.title } := hstate2
  obtain ⟨n1, n2, n3, n4⟩ := checkLoop_spec env now u urls
    { newP := [], changedP := [], deletedP := [],
      pages := (checkLoop env now urls
        { newP := [], changedP := [], deletedP := [], pages := pages }).pages }
  refine ⟨⟨_, hstate, rfl, rfl⟩, ?_, ?_, ?_⟩
  · unfold checkForChanges
    dsimp only
    rw [n1, hstate2]
    rintro (h | ⟨_, h⟩)
    · exact absurd h (List.not_mem_nil u)
    · exact Option.noConfusion h
  · unfold checkForChanges
    dsimp only
    rw [n2, hstate2]
    rintro (h | ⟨_, r2, hr2, hd2, _⟩)
    · exact absurd h (List.not_mem_nil u)
    · cases hr2
      dsimp only at hd2
      omega
  · unfold checkForChanges
    dsimp only
    rw [List.mem_append, n3, hstate2]
    rintro ((h | ⟨_, r2, hr2, hd2, _⟩) | h)
    · exact absurd h (List.not_mem_nil u)
    · cases hr2
      dsimp only at hd2
      omega
    · rw [List.mem_filter, decide_eq_true_eq] at h
      exact h.2 (List.elem_iff.mpr hu)

/-- Witness for C10 at a concrete store and a succeeding fetch. -/
theorem C10_witness :
    (∃ r2, lookupA (checkForChanges envFetchOk 100 [("a", staleRec)] ["a"]).2 "a" = some r2 ∧
      r2.contentHash = getContentHash envFetchOk.md5 "закон" ∧ r2.lastCheck = 100) ∧
    ¬ "a" ∈ (checkForChanges envFetchOk 100
      (checkForChanges envFetchOk 100 [("a", staleRec)] ["a"]).2 ["a"]).1.1 ∧
    ¬ "a" ∈ (checkForChanges envFetchOk 100
      (checkForChanges envFetchOk 100 [("a", staleRec)] ["a"]).2 ["a"]).1.2.1 ∧
    ¬ "a" ∈ (checkForChanges envFetchOk 100
      (checkForChanges envFetchOk 100 [("a", staleRec)] ["a"]).2 ["a"]).1.2.2 :=
  C10_theorem envFetchOk 100 [("a", staleRec)] ["a"] "a" staleRec
    { title := "заголовок", content := "закон" }
    (by decide) (by decide) (by decide) (by decide)

/-! ### Fallback orchestrator: C7 -/

theorem exceptCases {A B : Type} (x : Except A B) :
    (∃ e, x = Except.error e) ∨ (∃ b, x = Except.ok b) := by
  cases x with
  | error e => exact Or.inl ⟨e, rfl⟩
  | ok b => exact Or.inr ⟨b, rfl⟩

/-- C7: the fallback search orchestrator is total and never propagates an
exception: its result is either the failure pair or a successful answer;
every failing step (no URLs, nothing scraped, nothing admissible, a store
error, zero chunks) yields the failure pair; and a successful answer occurs
only when the store reported a positive chunk count and the subsequent
re-query returned documents. -/
theorem C7_theorem (env : SearchEnv) (q : String) :
    (searchAndAddToKnowledgeBase env q = (none, false) ∨
      ∃ a, searchAndAddToKnowledgeBase env q = (some a, true)) ∧
    (dynUniqueUrls env q = [] → searchAndAddToKnowledgeBase env q = (none, false)) ∧
    (dynScraped env q = [] → searchAndAddToKnowledgeBase env q = (none, false)) ∧
    (dynFiltered env q = [] → searchAndAddToKnowledgeBase env q = (none, false)) ∧
    (∀ e, env.addToKB (dynFiltered env q) = Except.error e →
      searchAndAddToKnowledgeBase env q = (none, false)) ∧
    (env.addToKB (dynFiltered env q) = Except.ok 0 →
      searchAndAddToKnowledgeBase env q = (none, false)) ∧
    (∀ a, searchAndAddToKnowledgeBase env q = (some a, true) →
      ∃ n, env.addToKB (dynFiltered env q) = Except.ok n ∧ 0 < n ∧
        env.requery q ≠ []) := by
  have failCase : searchAndAddToKnowledgeBase env q = (none, false) →
      (searchAndAddToKnowledgeBase env q = (none, false) ∨
        ∃ a, searchAndAddToKnowledgeBase env q = (some a, true)) ∧
      (dynUniqueUrls env q = [] → searchAndAddToKnowledgeBase env q = (none, false)) ∧
      (dynScraped env q = [] → searchAndAddToKnowledgeBase env q = (none, false)) ∧
      (dynFiltered env q = [] → searchAndAddToKnowledgeBase env q = (none, false)) ∧
      (∀ e, env.addToKB (dynFiltered env q) = Except.error e →
        searchAndAddToKnowledgeBase env q = (none, false)) ∧
      (env.addToKB (dynFiltered env q) = Except.ok 0 →
        searchAndAddToKnowledgeBase env q = (none, false)) ∧
      (∀ a, searchAndAddToKnowledgeBase env q = (some a, true) →
        ∃ n, env.addToKB (dynFiltered env q) = Except.ok n ∧ 0 < n ∧
          env.requery q ≠ []) := by
    intro hres
    refine ⟨Or.inl hres, fun _ => hres, fun _ => hres, fun _ => hres,
      fun _ _ => hres, fun _ => hres, fun a ha => ?_⟩
    rw [hres] at ha
    simp at ha
  by_cases h1 : (dynUniqueUrls env q).isEmpty
  · exact failCase (by unfold searchAndAddToKnowledgeBase searchAndAddBody; rw [if_pos h1])
  · by_cases h2 : (dynScraped env q).isEmpty
    · exact failCase (by
        unfold searchAndAddToKnowledgeBase searchAndAddBody
        rw [if_neg h1, if_pos h2])
    · by_cases h3 : (dynFiltered env q).isEmpty
      · exact failCase (by
          unfold searchAndAddToKnowledgeBase searchAndAddBody
          rw [if_neg h1, if_neg h2, if_pos h3])
      · rcases exceptCases (env.addToKB (dynFiltered env q)) with ⟨e, hk⟩ | ⟨n, hk⟩
        · exact failCase (by
            unfold searchAndAddToKnowledgeBase searchAndAddBody
            rw [if_neg h1, if_neg h2, if_neg h3, hk])
        · by_cases hn : 0 < n
          · rcases exceptCases (env.updateTracker (dynScraped env q).length n) with
              ⟨e, ht⟩ | ⟨unitv, ht⟩
            · exact failCase (by
                unfold searchAndAddToKnowledgeBase searchAndAddBody
                rw [if_neg h1, if_neg h2, if_neg h3, hk]
                dsimp only
                rw [if_pos hn, ht])
            · by_cases hd : (env.requery q).isEmpty
              · exact failCase (by
                  unfold searchAndAddToKnowledgeBase searchAndAddBody
                  rw [if_neg h1, if_neg h2, if_neg h3, hk]
                  dsimp only
                  rw [if_pos hn, ht]
                  dsimp only
                  rw [if_pos hd])
              · rcases exceptCases (env.getAnswer q (env.requery q)) with
                  ⟨e, hg⟩ | ⟨answer, hg⟩
                · exact failCase (by
                    unfold searchAndAddToKnowledgeBase searchAndAddBody
                    rw [if_neg h1, if_neg h2, if_neg h3, hk]
                    dsimp only
                    rw [if_pos hn, ht]
                    dsimp only
                    rw [if_neg hd, hg])
                · have hres : searchAndAddToKnowledgeBase env q
                      = (some (answer ++ sourceNote (dynScraped env q).length), true) := by
                    unfold searchAndAddToKnowledgeBase searchAndAddBody
                    rw [if_neg h1, if_neg h2, if_neg h3, hk]
                    dsimp only
                    rw [if_pos hn, ht]
                    dsimp only
                    rw [if_neg hd, hg]
                  refine ⟨Or.inr ⟨_, hres⟩, ?_, ?_, ?_, ?_, ?_, ?_⟩
                  · intro he
                    exact absurd (by rw [he]; rfl : (dynUniqueUrls env q).isEmpty = true) h1
                  · intro he
                    exact absurd (by rw [he]; rfl : (dynScraped env q).isEmpty = true) h2
                  · intro he
                    exact absurd (by rw [he]; rfl : (dynFiltered env q).isEmpty = true) h3
                  · intro e2 he2
                    rw [hk] at he2
                    exact Except.noConfusion he2
                  · intro he0
                    rw [hk] at he0
                    injection he0 with hh
                    exact absurd hh (by omega)
                  · intro a ha
                    refine ⟨n, hk, hn, ?_⟩
                    intro hre
                    exact hd (by rw [hre]; rfl)
          · exact failCase (by
              unfold searchAndAddToKnowledgeBase searchAndAddBody
              rw [if_neg h1, if_neg h2, if_neg h3, hk]
              dsimp only
              rw [if_neg hn])


/-! ### Idempotent re-crawl: lemmas for C6 -/

theorem discover_cached (env : ScrapeEnv) (t : Nat) (st : PagesInfo)
    (startUrl : String) (maxPages fuel : Nat) (sm : SiteMapRec)
    (h : lookupA st.siteMaps (env.domain startUrl) = some sm)
    (hfresh : t - sm.lastScan < 168) :
    discoverSiteUrls env t st startUrl maxPages fuel = (sm.urls, st) := by
  unfold discoverSiteUrls
  dsimp only
  rw [h]
  dsimp only
  rw [if_pos hfresh]

theorem discover_fresh (env : ScrapeEnv) (t : Nat) (st : PagesInfo)
    (startUrl : String) (maxPages fuel : Nat) :
    ∃ sm, lookupA (discoverSiteUrls env t st startUrl maxPages fuel).2.siteMaps
        (env.domain startUrl) = some sm ∧
      sm.urls = (discoverSiteUrls env t st startUrl maxPages fuel).1 ∧
      t - sm.lastScan < 168 := by
  unfold discoverSiteUrls
  dsimp only
  cases h : lookupA st.siteMaps (env.domain startUrl) with
  | none =>
    dsimp only
    refine ⟨_, lookupA_insertA_self _ _ _, rfl, ?_⟩
    dsimp only
    omega
  | some sm =>
    dsimp only
    by_cases hfresh : t - sm.lastScan < 168
    · rw [if_pos hfresh]
      exact ⟨sm, h, rfl, hfresh⟩
    · rw [if_neg hfresh]
      dsimp only
      refine ⟨_, lookupA_insertA_self _ _ _, rfl, ?_⟩
      dsimp only
      omega

theorem incrementalScrape_siteMaps (env : ScrapeEnv) (t : Nat) (st : PagesInfo)
    (startUrl : String) (maxPages fuel : Nat) (addKB : List ScrapedPage → Nat) :
    (incrementalScrape env t st startUrl maxPages fuel addKB).2.siteMaps
      = (discoverSiteUrls env t st startUrl maxPages fuel).2.siteMaps := by
  unfold incrementalScrape
  dsimp only
  split
  · rfl
  · rfl

theorem scrapeLoop_lookup_other (env : ScrapeEnv) (t : Nat) (u : String) :
    ∀ (us : List String) (acc : List ScrapedPage × List (String × PageRecord)),
      ¬ u ∈ us →
      lookupA (scrapePagesLoop env t us acc).2 u = lookupA acc.2 u := by
  intro us
  induction us with
  | nil => intro acc _; rfl
  | cons v rest ih =>
    intro acc hu
    simp only [List.mem_cons, not_or] at hu
    obtain ⟨scraped, pages⟩ := acc
    simp only [scrapePagesLoop]
    cases hv : scrapeSinglePage env v with
    | none => exact ih _ hu.2
    | some pd =>
      rw [ih _ hu.2]
      exact lookupA_insertA_other _ _ _ _ hu.1

theorem scrapeLoop_lookup_mem (env : ScrapeEnv) (t : Nat) (u : String) (pd : ScrapedPage)
    (hs : scrapeSinglePage env u = some pd) :
    ∀ (us : List String) (acc : List ScrapedPage × List (String × PageRecord)),
      u ∈ us →
      lookupA (scrapePagesLoop env t us acc).2 u
        = some { contentHash := getContentHash env.md5 pd.content, title := pd.title,
                 lastCheck := t, lastScraped := some t,
                 contentLength := pd.content.length } := by
  intro us
  induction us with
  | nil => intro acc hu; exact absurd hu (List.not_mem_nil u)
  | cons v rest ih =>
    intro acc hu
    obtain ⟨scraped, pages⟩ := acc
    by_cases hv : v = u
    · subst hv
      simp only [scrapePagesLoop, hs]
      by_cases hr : v ∈ rest
      · exact ih _ hr
      · rw [scrapeLoop_lookup_other env t v rest _ hr]
        exact lookupA_insertA_self _ _ _
    · rcases List.mem_cons.mp hu with he | hr
      · exact absurd he.symm hv
      · simp only [scrapePagesLoop]
        cases hv2 : scrapeSinglePage env v with
        | none => exact ih _ hr
        | some pd2 => exact ih _ hr

theorem incrementalScrape_records (env : ScrapeEnv) (t : Nat) (st0 : PagesInfo)
    (startUrl : String) (maxPages fuel : Nat) (addKB : List ScrapedPage → Nat)
    (HF : ∀ u ∈ (discoverSiteUrls env t st0 startUrl maxPages fuel).1,
      ∃ f, env.fetch u = some f ∧ 100 ≤ (cleanText f.content).length) :
    ∀ u ∈ (discoverSiteUrls env t st0 startUrl maxPages fuel).1,
      ∃ r, lookupA (incrementalScrape env t st0 startUrl maxPages fuel addKB).2.pages u
          = some r ∧ t - r.lastCheck < 24 := by
  intro u hu
  obtain ⟨f, hf, hlen⟩ := HF u hu
  obtain ⟨m1, m2, m3, m4⟩ := checkLoop_spec env t u
    (discoverSiteUrls env t st0 startUrl maxPages fuel).1
    { newP := [], changedP := [], deletedP := [],
      pages := (discoverSiteUrls env t st0 startUrl maxPages fuel).2.pages }
  have hafter : lookupA (discoverSiteUrls env t st0 startUrl maxPages fuel).2.pages u ≠ none →
      ∃ r2, afterCheck env t u
          (lookupA (discoverSiteUrls env t st0 startUrl maxPages fuel).2.pages u) = some r2 ∧
        t - r2.lastCheck < 24 := by
    intro hne
    cases hcur : lookupA (discoverSiteUrls env t st0 startUrl maxPages fuel).2.pages u with
    | none => exact absurd hcur hne
    | some r =>
      by_cases hfr : t - r.lastCheck < 24
      · exact ⟨r, by simp [afterCheck, hfr], hfr⟩
      · have hrec : afterCheck env t u (some r)
            = some { r with lastCheck := t,
                            contentHash := getContentHash env.md5 f.content,
                            title := f.title } := by
          simp [afterCheck, hfr, hf]
        refine ⟨_, hrec, ?_⟩
        dsimp only
        omega
  unfold incrementalScrape
  dsimp only
  split
  · -- early return: the new and changed lists are empty
    rename_i hcond
    dsimp only
    rw [show (checkForChanges env t
        (discoverSiteUrls env t st0 startUrl maxPages fuel).2.pages
        (discoverSiteUrls env t st0 startUrl maxPages fuel).1).2
      = (checkLoop env t (discoverSiteUrls env t st0 startUrl maxPages fuel).1
          { newP := [], changedP := [], deletedP := [],
            pages := (discoverSiteUrls env t st0 startUrl maxPages fuel).2.pages }).pages
      from rfl]
    rw [m4, if_pos hu]
    apply hafter
    intro hnone
    have hmem := m1.mpr (Or.inr ⟨hu, hnone⟩)
    rw [List.isEmpty_iff] at hcond
    have := List.append_eq_nil.mp hcond
    rw [show (checkForChanges env t
        (discoverSiteUrls env t st0 startUrl maxPages fuel).2.pages
        (discoverSiteUrls env t st0 startUrl maxPages fuel).1).1.1
      = (checkLoop env t (discoverSiteUrls env t st0 startUrl maxPages fuel).1
          { newP := [], changedP := [], deletedP := [],
            pages := (discoverSiteUrls env t st0 startUrl maxPages fuel).2.pages }).newP
      from rfl] at this
    rw [this.1] at hmem
    exact List.not_mem_nil u hmem
  · -- scraping branch
    dsimp only
    have hdel : ¬ u ∈ (checkForChanges env t
        (discoverSiteUrls env t st0 startUrl maxPages fuel).2.pages
        (discoverSiteUrls env t st0 startUrl maxPages fuel).1).1.2.2 := by
      intro hmem
      rw [show (checkForChanges env t
          (discoverSiteUrls env t st0 startUrl maxPages fuel).2.pages
          (discoverSiteUrls env t st0 startUrl maxPages fuel).1).1.2.2
        = (checkLoop env t (discoverSiteUrls env t st0 startUrl maxPages fuel).1
            { newP := [], changedP := [], deletedP := [],
              pages := (discoverSiteUrls env t st0 startUrl maxPages fuel).2.pages }).deletedP
          ++ ((checkLoop env t (discoverSiteUrls env t st0 startUrl maxPages fuel).1
            { newP := [], changedP := [], deletedP := [],
              pages := (discoverSiteUrls env t st0 startUrl maxPages fuel).2.pages }).pages.map
                Prod.fst).filter
            (fun x => ¬ (discoverSiteUrls env t st0 startUrl maxPages fuel).1.contains x)
        from rfl] at hmem
      rcases List.mem_append.mp hmem with hm | hm
      · rw [m3] at hm
        rcases hm with hm | ⟨_, r, _, _, hgone⟩
        · exact List.not_mem_nil u hm
        · rw [hf] at hgone
          exact Option.noConfusion hgone
      · rw [List.mem_filter, decide_eq_true_eq] at hm
        exact hm.2 (List.elem_iff.mpr hu)
    rw [lookupA_foldl_removeA _ _ _ hdel]
    have hspd : scrapeSinglePage env u
        = some { url := u, title := f.title, content := cleanText f.content,
                 domain := env.domain u } := by
      unfold scrapeSinglePage
      rw [hf]
      dsimp only
      rw [if_neg (by omega)]
    by_cases hm : u ∈ (checkForChanges env t
        (discoverSiteUrls env t st0 startUrl maxPages fuel).2.pages
        (discoverSiteUrls env t st0 startUrl maxPages fuel).1).1.1
      ++ (checkForChanges env t
        (discoverSiteUrls env t st0 startUrl maxPages fuel).2.pages
        (discoverSiteUrls env t st0 startUrl maxPages fuel).1).1.2.1
    · rw [scrapeLoop_lookup_mem env t u _ hspd _ _ hm]
      refine ⟨_, rfl, ?_⟩
      dsimp only
      omega
    · rw [scrapeLoop_lookup_other env t u _ _ hm]
      dsimp only
      rw [show (checkForChanges env t
          (discoverSiteUrls env t st0 startUrl maxPages fuel).2.pages
          (discoverSiteUrls env t st0 startUrl maxPages fuel).1).2
        = (checkLoop env t (discoverSiteUrls env t st0 startUrl maxPages fuel).1
            { newP := [], changedP := [], deletedP := [],
              pages := (discoverSiteUrls env t st0 startUrl maxPages fuel).2.pages }).pages
        from rfl]
      rw [m4, if_pos hu]
      apply hafter
      intro hnone
      have hmem := m1.mpr (Or.inr ⟨hu, hnone⟩)
      apply hm
      apply List.mem_append.mpr
      left
      exact hmem

theorem incrementalScrape_quiet (env : ScrapeEnv) (t : Nat) (st : PagesInfo)
    (startUrl : String) (maxPages fuel : Nat) (addKB : List ScrapedPage → Nat)
    (h1 : (checkForChanges env t (discoverSiteUrls env t st startUrl maxPages fuel).2.pages
        (discoverSiteUrls env t st startUrl maxPages fuel).1).1.1 = [])
    (h2 : (checkForChanges env t (discoverSiteUrls env t st startUrl maxPages fuel).2.pages
        (discoverSiteUrls env t st startUrl maxPages fuel).1).1.2.1 = []) :
    (incrementalScrape env t st startUrl maxPages fuel addKB).1.newPages = 0 ∧
    (incrementalScrape env t st startUrl maxPages fuel addKB).1.changedPages = 0 := by
  unfold incrementalScrape
  dsimp only
  rw [h1, h2]
  simp

/-- C6: if a second `incremental_scrape` runs immediately after a first one
over a site whose every discovered URL still fetches successfully with
scrapeable content, the second run reports zero new pages and zero changed
pages. -/
theorem C6_theorem (env : ScrapeEnv) (t : Nat) (st0 : PagesInfo) (startUrl : String)
    (maxPages fuel : Nat) (addKB : List ScrapedPage → Nat)
    (HF : ∀ u ∈ (discoverSiteUrls env t st0 startUrl maxPages fuel).1,
      ∃ f, env.fetch u = some f ∧ 100 ≤ (cleanText f.content).length) :
    (incrementalScrape env t (incrementalScrape env t st0 startUrl maxPages fuel addKB).2
        startUrl maxPages fuel addKB).1.newPages = 0 ∧
    (incrementalScrape env t (incrementalScrape env t st0 startUrl maxPages fuel addKB).2
        startUrl maxPages fuel addKB).1.changedPages = 0 := by
  obtain ⟨sm, hsm, hurls, hfr⟩ := discover_fresh env t st0 startUrl maxPages fuel
  have hdisc2 : discoverSiteUrls env t
      (incrementalScrape env t st0 startUrl maxPages fuel addKB).2 startUrl maxPages fuel
      = ((discoverSiteUrls env t st0 startUrl maxPages fuel).1,
         (incrementalScrape env t st0 startUrl maxPages fuel addKB).2) := by
    have hc := discover_cached env t
      (incrementalScrape env t st0 startUrl maxPages fuel addKB).2
      startUrl maxPages fuel sm
      (by rw [incrementalScrape_siteMaps]; exact hsm) hfr
    rw [hc, hurls]
  have hrecs := incrementalScrape_records env t st0 startUrl maxPages fuel addKB HF
  apply incrementalScrape_quiet
  · rw [hdisc2]
    dsimp only
    rw [List.eq_nil_iff_forall_not_mem]
    intro u hu
    obtain ⟨m1, m2, m3, m4⟩ := checkLoop_spec env t u
      (discoverSiteUrls env t st0 startUrl maxPages fuel).1
      { newP := [], changedP := [], deletedP := [],
        pages := (incrementalScrape env t st0 startUrl maxPages fuel addKB).2.pages }
    rw [show (checkForChanges env t
        (incrementalScrape env t st0 startUrl maxPages fuel addKB).2.pages
        (discoverSiteUrls env t st0 startUrl maxPages fuel).1).1.1
      = (checkLoop env t (discoverSiteUrls env t st0 startUrl maxPages fuel).1
          { newP := [], changedP := [], deletedP := [],
            pages := (incrementalScrape env t st0 startUrl maxPages fuel addKB).2.pages }).newP
      from rfl] at hu
    rw [m1] at hu
    rcases hu with hu | ⟨huU, hnone⟩
    · exact List.not_mem_nil u hu
    · obtain ⟨r, hr, _⟩ := hrecs u huU
      rw [hr] at hnone
      exact Option.noConfusion hnone
  · rw [hdisc2]
    dsimp only
    rw [List.eq_nil_iff_forall_not_mem]
    intro u hu
    obtain ⟨m1, m2, m3, m4⟩ := checkLoop_spec env t u
      (discoverSiteUrls env t st0 startUrl maxPages fuel).1
      { newP := [], changedP := [], deletedP := [],
        pages := (incrementalScrape env t st0 startUrl maxPages fuel addKB).2.pages }
    rw [show (checkForChanges env t
        (incrementalScrape env t st0 startUrl maxPages fuel addKB).2.pages
        (discoverSiteUrls env t st0 startUrl maxPages fuel).1).1.2.1
      = (checkLoop env t (discoverSiteUrls env t st0 startUrl maxPages fuel).1
          { newP := [], changedP := [], deletedP := [],
            pages := (incrementalScrape env t st0 startUrl maxPages fuel addKB).2.pages }).changedP
      from rfl] at hu
    rw [m2] at hu
    rcases hu with hu | ⟨huU, r, hrr, hdue, _⟩
    · exact List.not_mem_nil u hu
    · obtain ⟨r2, hr2, hfr2⟩ := hrecs u huU
      rw [hr2] at hrr
      injection hrr with he
      subst he
      omega


/-- Witness for C6 at a one-page site whose fetch always succeeds. -/
theorem C6_witness :
    (∀ u ∈ (discoverSiteUrls envFetchLong 0 ⟨[], []⟩ "a" 10 10).1,
      ∃ f, envFetchLong.fetch u = some f ∧ 100 ≤ (cleanText f.content).length) ∧
    (incrementalScrape envFetchLong 0
        (incrementalScrape envFetchLong 0 ⟨[], []⟩ "a" 10 10 (fun _ => 0)).2
        "a" 10 10 (fun _ => 0)).1.newPages = 0 ∧
    (incrementalScrape envFetchLong 0
        (incrementalScrape envFetchLong 0 ⟨[], []⟩ "a" 10 10 (fun _ => 0)).2
        "a" 10 10 (fun _ => 0)).1.changedPages = 0 :=
  ⟨fun _ _ => ⟨{ title := "т", content := longPage }, rfl, by decide⟩,
   (C6_theorem envFetchLong 0 ⟨[], []⟩ "a" 10 10 (fun _ => 0)
     (fun _ _ => ⟨{ title := "т", content := longPage }, rfl, by decide⟩)).1,
   (C6_theorem envFetchLong 0 ⟨[], []⟩ "a" 10 10 (fun _ => 0)
     (fun _ _ => ⟨{ title := "т", content := longPage }, rfl, by decide⟩)).2⟩

end LegalBot
